import Mathlib

/-!
Shallow embedding of the paper-trading engine
(`src/paper_trading/engine.py`, class `PaperTradingEngine`).

Modelling conventions:
* Python floats are embedded as `ℚ` (exact arithmetic); Python raises
  `ZeroDivisionError` on `x / 0.0`, so every division of the source is
  guarded by an explicit zero test that raises rather than using Lean's
  total `/`: `total_cost / total_quantity` in `_update_position`, the
  drawdown division `(initial_balance - equity) / initial_balance` in
  `_update_account_equity` (which fires on an engine constructed with
  `initial_balance == 0`, after the fill has already been applied to the
  account), and the `return_pct` division in `get_account_summary`.  The
  `win_rate` division is guarded by the source itself
  (`if total_trades > 0`).
* `datetime.now()` is embedded as an explicit timestamp parameter (`ℕ`)
  supplied with each public operation; all `now()` calls inside a single
  operation observe the same instant.
* `np.random.uniform(-0.02, 0.02)` in `_get_current_price` is embedded as
  an oracle `variation : String → ℚ` giving the perturbation drawn at the
  first pricing of each symbol.  Because the result is cached on first
  access, each symbol is priced at most once per engine lifetime, so a
  per-symbol oracle is observationally equivalent to a random stream.
* Python dicts are embedded as insertion-ordered association lists:
  assignment to an existing key updates it in place, assignment to a new
  key appends, `del` removes the key.
* Exceptions are embedded with `Except`.  The error value carries the
  message together with the order and engine state as they are at the
  raise site (Python mutates in place, so the caller's handler observes
  exactly that state).  At both raise sites of the source — the
  `None`-comparison `TypeError` in `_execute_order` and the
  `ZeroDivisionError` in `_update_position` — the raise happens while
  evaluating the right-hand side of an assignment, before anything is
  stored, so the account at the raise site equals the account at entry.
* File logging (`_log_order`) and the `logger` calls are I/O only and are
  not part of the model.
-/

inductive OrderSide where
  | buy
  | sell
deriving DecidableEq

inductive OrderType where
  | market
  | limit
  | stop
deriving DecidableEq

inductive OrderStatus where
  | pending
  | filled
  | cancelled
  | rejected
deriving DecidableEq

/-- `PaperOrder` dataclass. -/
structure PaperOrder where
  id : String
  symbol : String
  side : OrderSide
  order_type : OrderType
  quantity : ℚ
  price : Option ℚ
  stop_price : Option ℚ
  status : OrderStatus
  created_at : ℕ
  filled_at : Option ℕ
  filled_price : Option ℚ
  filled_quantity : Option ℚ
  commission : ℚ
  notes : String
deriving DecidableEq

/-- `PaperPosition` dataclass. -/
structure PaperPosition where
  symbol : String
  side : OrderSide
  quantity : ℚ
  entry_price : ℚ
  current_price : ℚ
  unrealized_pnl : ℚ
  realized_pnl : ℚ
  created_at : ℕ
  updated_at : ℕ
deriving DecidableEq

/-- One entry of `account.trade_history` (the dict built in `_fill_order`). -/
structure Trade where
  order_id : String
  symbol : String
  side : OrderSide
  quantity : ℚ
  price : ℚ
  commission : ℚ
  timestamp : ℕ
  pnl : ℚ
deriving DecidableEq

/-- `PaperAccount` dataclass. -/
structure PaperAccount where
  balance : ℚ
  equity : ℚ
  margin_used : ℚ
  free_margin : ℚ
  positions : List (String × PaperPosition)
  orders : List PaperOrder
  trade_history : List Trade
  total_trades : ℕ
  winning_trades : ℕ
  losing_trades : ℕ
  total_pnl : ℚ
  max_drawdown : ℚ
  created_at : ℕ
  updated_at : ℕ
deriving DecidableEq

/-- The engine object (`PaperTradingEngine.__init__` state). -/
structure Engine where
  initial_balance : ℚ
  commission_rate : ℚ
  account : PaperAccount
  order_counter : ℕ
  is_running : Bool
  variation : String → ℚ
  price_cache : List (String × ℚ)

/-- The mapping returned by `get_account_summary`. -/
structure AccountSummary where
  balance : ℚ
  equity : ℚ
  margin_used : ℚ
  free_margin : ℚ
  total_trades : ℕ
  winning_trades : ℕ
  losing_trades : ℕ
  win_rate : ℚ
  total_pnl : ℚ
  max_drawdown : ℚ
  return_pct : ℚ
  positions : List (String × PaperPosition)
  open_orders : List PaperOrder
  created_at : ℕ
  updated_at : ℕ
deriving DecidableEq

/-! ### Python-dict helpers (insertion-ordered association lists) -/

def lookupQ : List (String × ℚ) → String → Option ℚ
  | [], _ => none
  | (k, v) :: rest, s => if k = s then some v else lookupQ rest s

def lookupPos : List (String × PaperPosition) → String → Option PaperPosition
  | [], _ => none
  | (k, v) :: rest, s => if k = s then some v else lookupPos rest s

/-- Dict assignment: update the existing key in place, else append. -/
def setPos : List (String × PaperPosition) → String → PaperPosition → List (String × PaperPosition)
  | [], s, p => [(s, p)]
  | (k, v) :: rest, s, p => if k = s then (s, p) :: rest else (k, v) :: setPos rest s p

/-- Dict `del` (keys are unique, so removing every occurrence is the same). -/
def delPos : List (String × PaperPosition) → String → List (String × PaperPosition)
  | [], _ => []
  | (k, v) :: rest, s => if k = s then delPos rest s else (k, v) :: delPos rest s

/-- Python `x or y` on an `Optional[float]`: `None` and `0.0` are falsy. -/
def pyOr (x : Option ℚ) (d : ℚ) : ℚ :=
  match x with
  | none => d
  | some v => if v = 0 then d else v

/-! ### Engine construction -/

/-- `_create_initial_account`. -/
def createInitialAccount (initial_balance : ℚ) (now : ℕ) : PaperAccount :=
  { balance := initial_balance
    equity := initial_balance
    margin_used := 0
    free_margin := initial_balance
    positions := []
    orders := []
    trade_history := []
    total_trades := 0
    winning_trades := 0
    losing_trades := 0
    total_pnl := 0
    max_drawdown := 0
    created_at := now
    updated_at := now }

/-- `PaperTradingEngine.__init__`. -/
def mkEngine (initial_balance commission_rate : ℚ) (variation : String → ℚ) (now : ℕ) : Engine :=
  { initial_balance := initial_balance
    commission_rate := commission_rate
    account := createInitialAccount initial_balance now
    order_counter := 0
    is_running := false
    variation := variation
    price_cache := [] }

/-- Zero-pad a numeral to width `w` (the `{:06d}` format). -/
def padZeros (s : String) (w : ℕ) : String :=
  String.mk (List.replicate (w - s.length) '0') ++ s

/-- `_generate_order_id` id text for a given (already incremented) counter. -/
def formatOrderId (n : ℕ) : String :=
  "PAPER_" ++ padZeros (toString n) 6

/-- The `base_prices` table of `_get_current_price`, fallback `100.0`. -/
def basePrice (symbol : String) : ℚ :=
  if symbol = "BTCUSDT" then 50000
  else if symbol = "ETHUSDT" then 3000
  else if symbol = "ADAUSDT" then 1/2
  else if symbol = "DOTUSDT" then 20
  else 100

/-- `_get_current_price`, acting on the cache alone. -/
def getCurrentPriceC (variation : String → ℚ) (cache : List (String × ℚ)) (symbol : String) :
    ℚ × List (String × ℚ) :=
  match lookupQ cache symbol with
  | some p => (p, cache)
  | none =>
    let p := basePrice symbol * (1 + variation symbol)
    (p, cache ++ [(symbol, p)])

/-- `_get_current_price` on the engine. -/
def getCurrentPrice (e : Engine) (symbol : String) : ℚ × Engine :=
  let r := getCurrentPriceC e.variation e.price_cache symbol
  (r.1, { e with price_cache := r.2 })

/-- `_calculate_commission`. -/
def calcCommission (e : Engine) (quantity price : ℚ) : ℚ :=
  quantity * price * e.commission_rate

/-- `_calculate_realized_pnl`. -/
def calcRealizedPnl (position : PaperPosition) (exit_price quantity : ℚ) : ℚ :=
  if position.side = OrderSide.buy then (exit_price - position.entry_price) * quantity
  else (position.entry_price - exit_price) * quantity

/-! ### Equity and drawdown (`_update_account_equity`) -/

/-- The position-marking loop of `_update_account_equity`: refresh each
position's `current_price` and `unrealized_pnl` and accumulate the total
unrealized PnL, threading the price cache.  (The source accumulates with
`+=` in iteration order; over `ℚ` a right fold yields the same sum.) -/
def markPositions (variation : String → ℚ) :
    List (String × ℚ) → List (String × PaperPosition) →
    List (String × PaperPosition) × ℚ × List (String × ℚ)
  | cache, [] => ([], 0, cache)
  | cache, (sym, pos) :: rest =>
    let r := getCurrentPriceC variation cache sym
    let upnl :=
      if pos.side = OrderSide.buy then (r.1 - pos.entry_price) * pos.quantity
      else (pos.entry_price - r.1) * pos.quantity
    let pos' := { pos with current_price := r.1, unrealized_pnl := upnl }
    let rec2 := markPositions variation r.2 rest
    ((sym, pos') :: rec2.1, upnl + rec2.2.1, rec2.2.2)

def zeroDivMsg : String := "float division by zero"

/-- The engine state `_update_account_equity` has already written when
control reaches the drawdown branch: positions marked to current prices,
`equity` assigned (`balance + Σ unrealized`), price cache extended;
`max_drawdown` and `updated_at` not yet touched. -/
def markedEngine (e : Engine) : Engine :=
  let m := markPositions e.variation e.price_cache e.account.positions
  { e with
    price_cache := m.2.2
    account := { e.account with
      positions := m.1
      equity := e.account.balance + m.2.1 } }

/-- `_update_account_equity`.  The drawdown division
`(initial_balance - equity) / initial_balance` raises `ZeroDivisionError`
in Python when `initial_balance == 0` (reachable whenever some fill has
left `equity < 0`); the raise happens after the marking loop and the
`equity` assignment but before `max_drawdown` and `updated_at` are
written, so the error value carries exactly `markedEngine e`. -/
def updateAccountEquity (e : Engine) (now : ℕ) : Except (String × Engine) Engine :=
  let e1 := markedEngine e
  if e1.account.equity < e.initial_balance then
    if e.initial_balance = 0 then Except.error (zeroDivMsg, e1)
    else
      Except.ok { e1 with account := { e1.account with
        max_drawdown := max e1.account.max_drawdown
          ((e.initial_balance - e1.account.equity) / e.initial_balance)
        updated_at := now } }
  else Except.ok { e1 with account := { e1.account with updated_at := now } }

/-! ### Position netting (`_update_position`) -/

/-- The position literal the source builds (twice) for a fresh position. -/
def newPosition (symbol : String) (side : OrderSide) (quantity entry : ℚ) (now : ℕ) :
    PaperPosition :=
  { symbol := symbol
    side := side
    quantity := quantity
    entry_price := entry
    current_price := entry
    unrealized_pnl := 0
    realized_pnl := 0
    created_at := now
    updated_at := now }

/-- `_update_position`.  The only raise site is the weighted-average
division when `total_quantity == 0` (`ZeroDivisionError`); the raise
happens while evaluating the right-hand side of the `entry_price`
assignment, so nothing has been stored yet and the error case returns no
engine.  (On the full-close path the source also does
`position.realized_pnl += realized_pnl` on the object it is about to
delete — a dead store with no observable effect — and the trailing
`position.updated_at = datetime.now()` likewise touches only the removed
object on that path.) -/
def updatePosition (e : Engine) (now : ℕ) (order : PaperOrder) (fill_price : ℚ) :
    Except String Engine :=
  let a := e.account
  match lookupPos a.positions order.symbol with
  | none =>
    Except.ok { e with account := { a with
      positions := a.positions ++
        [(order.symbol, newPosition order.symbol order.side order.quantity fill_price now)] } }
  | some position =>
    if position.side = order.side then
      let total_quantity := position.quantity + order.quantity
      let total_cost := position.quantity * position.entry_price + order.quantity * fill_price
      if total_quantity = 0 then Except.error zeroDivMsg
      else
        let position' := { position with
          entry_price := total_cost / total_quantity
          quantity := total_quantity
          updated_at := now }
        Except.ok { e with account := { a with
          positions := setPos a.positions order.symbol position' } }
    else
      if position.quantity ≤ order.quantity then
        let realized_pnl := calcRealizedPnl position fill_price position.quantity
        let a1 := { a with
          total_pnl := a.total_pnl + realized_pnl
          winning_trades := if 0 < realized_pnl then a.winning_trades + 1 else a.winning_trades
          losing_trades := if 0 < realized_pnl then a.losing_trades else a.losing_trades + 1
          positions := delPos a.positions order.symbol }
        let remaining := order.quantity - position.quantity
        if 0 < remaining then
          Except.ok { e with account := { a1 with
            positions := a1.positions ++
              [(order.symbol, newPosition order.symbol order.side remaining fill_price now)] } }
        else Except.ok { e with account := a1 }
      else
        let realized_pnl := calcRealizedPnl position fill_price order.quantity
        let position' := { position with
          realized_pnl := position.realized_pnl + realized_pnl
          quantity := position.quantity - order.quantity
          updated_at := now }
        Except.ok { e with account := { a with
          total_pnl := a.total_pnl + realized_pnl
          winning_trades := if 0 < realized_pnl then a.winning_trades + 1 else a.winning_trades
          losing_trades := if 0 < realized_pnl then a.losing_trades else a.losing_trades + 1
          positions := setPos a.positions order.symbol position' } }

/-! ### Fill, execute, place (`_fill_order`, `_execute_order`, `place_order`) -/

/-- `_fill_order`.  Two raise sites reach the caller: the netting
division in `_update_position` (raised before anything is stored, so the
error carries the pre-call engine) and the drawdown division inside the
final `_update_account_equity` call (raised after the balance update and
the trade-history append, so that error carries the raise-site engine
with the fill already applied).  Either way the error also carries the
order as already mutated — the fill fields are set before
`_update_position` is called. -/
def fillOrder (e : Engine) (now : ℕ) (order : PaperOrder) (fill_price : ℚ) :
    Except (String × PaperOrder × Engine) (PaperOrder × Engine) :=
  let commission := calcCommission e order.quantity fill_price
  let order' := { order with
    commission := commission
    status := OrderStatus.filled
    filled_at := some now
    filled_price := some fill_price
    filled_quantity := some order.quantity }
  match updatePosition e now order' fill_price with
  | Except.error msg => Except.error (msg, order', e)
  | Except.ok e1 =>
    let a := e1.account
    let balance' :=
      if order'.side = OrderSide.buy then a.balance - (order'.quantity * fill_price + commission)
      else a.balance + (order'.quantity * fill_price - commission)
    let trade : Trade :=
      { order_id := order'.id
        symbol := order'.symbol
        side := order'.side
        quantity := order'.quantity
        price := fill_price
        commission := commission
        timestamp := now
        pnl := 0 }
    let e2 := { e1 with account := { a with
      balance := balance'
      trade_history := a.trade_history ++ [trade]
      total_trades := a.total_trades + 1 } }
    match updateAccountEquity e2 now with
    | Except.error pr => Except.error (pr.1, order', pr.2)
    | Except.ok e3 => Except.ok (order', e3)

/-- The order as mutated by the top of `_fill_order` (commission and fill
fields set, status FILLED). -/
def fillMark (e : Engine) (t : ℕ) (o : PaperOrder) (fp : ℚ) : PaperOrder :=
  { o with
    commission := calcCommission e o.quantity fp
    status := OrderStatus.filled
    filled_at := some t
    filled_price := some fp
    filled_quantity := some o.quantity }

/-- The trade-history record appended by `_fill_order`. -/
def fillTrade (e : Engine) (t : ℕ) (o : PaperOrder) (fp : ℚ) : Trade :=
  { order_id := o.id
    symbol := o.symbol
    side := o.side
    quantity := o.quantity
    price := fp
    commission := calcCommission e o.quantity fp
    timestamp := t
    pnl := 0 }

/-- The cash/bookkeeping update `_fill_order` performs after
`_update_position` succeeds: balance adjusted, trade appended,
`total_trades` incremented (`e1` is the post-netting engine, `e` the
engine whose commission rate priced the fill). -/
def applyFill (e1 e : Engine) (t : ℕ) (o : PaperOrder) (fp : ℚ) : Engine :=
  { e1 with account := { e1.account with
      balance := if o.side = OrderSide.buy then
          e1.account.balance - (o.quantity * fp + calcCommission e o.quantity fp)
        else e1.account.balance + (o.quantity * fp - calcCommission e o.quantity fp)
      trade_history := e1.account.trade_history ++ [fillTrade e t o fp]
      total_trades := e1.account.total_trades + 1 } }

def noneCmpMsg : String := "comparison not supported between instances of float and NoneType"

/-- `_execute_order`.  Comparing a float against a `None` limit/stop price
raises `TypeError` in Python; in the source flow `order.price` is always
set by `place_order`, but `order.stop_price` is the raw argument and may
be `None`. -/
def executeOrder (e : Engine) (now : ℕ) (order : PaperOrder) :
    Except (String × PaperOrder × Engine) (PaperOrder × Engine) :=
  let r := getCurrentPrice e order.symbol
  let current_price := r.1
  let e1 := r.2
  match order.order_type with
  | OrderType.market => fillOrder e1 now order current_price
  | OrderType.limit =>
    match order.price with
    | none => Except.error (noneCmpMsg, order, e1)
    | some p =>
      if order.side = OrderSide.buy ∧ current_price ≤ p then fillOrder e1 now order p
      else if order.side = OrderSide.sell ∧ p ≤ current_price then fillOrder e1 now order p
      else Except.ok ({ order with status := OrderStatus.pending }, e1)
  | OrderType.stop =>
    match order.stop_price with
    | none => Except.error (noneCmpMsg, order, e1)
    | some sp =>
      if order.side = OrderSide.buy ∧ sp ≤ current_price then fillOrder e1 now order current_price
      else if order.side = OrderSide.sell ∧ current_price ≤ sp then
        fillOrder e1 now order current_price
      else Except.ok ({ order with status := OrderStatus.pending }, e1)

/-- The id allocation and first price read at the top of `place_order`. -/
def placePrep (e : Engine) (symbol : String) : ℚ × Engine :=
  getCurrentPrice { e with order_counter := e.order_counter + 1 } symbol

/-- The `PaperOrder(...)` literal built by `place_order`. -/
def initOrder (e : Engine) (now : ℕ) (symbol : String) (side : OrderSide) (otype : OrderType)
    (quantity : ℚ) (price stop_price : Option ℚ) : PaperOrder :=
  let current_price := (placePrep e symbol).1
  let order_price :=
    match otype with
    | OrderType.market => current_price
    | OrderType.limit => pyOr price current_price
    | OrderType.stop => pyOr stop_price current_price
  { id := formatOrderId (e.order_counter + 1)
    symbol := symbol
    side := side
    order_type := otype
    quantity := quantity
    price := some order_price
    stop_price := stop_price
    status := OrderStatus.pending
    created_at := now
    filled_at := none
    filled_price := none
    filled_quantity := none
    commission := 0
    notes := "" }

/-- `place_order`.  On success the order is appended to `account.orders`
and logged (logging not modelled); on an exception the handler marks the
order REJECTED with the exception text in `notes`, and the engine is left
in its raise-site state (the order is not appended). -/
def placeOrder (e : Engine) (now : ℕ) (symbol : String) (side : OrderSide) (otype : OrderType)
    (quantity : ℚ) (price stop_price : Option ℚ) : PaperOrder × Engine :=
  let e1 := (placePrep e symbol).2
  let order := initOrder e now symbol side otype quantity price stop_price
  match executeOrder e1 now order with
  | Except.ok (o, e2) =>
    (o, { e2 with account := { e2.account with orders := e2.account.orders ++ [o] } })
  | Except.error (msg, oR, eR) =>
    ({ oR with status := OrderStatus.rejected, notes := msg }, eR)

/-! ### Cancellation, summary, history -/

/-- The loop of `cancel_order`: cancel the first order whose id matches
and whose status is PENDING; `none` when no such order exists. -/
def cancelOrders : List PaperOrder → String → Option (List PaperOrder)
  | [], _ => none
  | o :: rest, oid =>
    if o.id = oid ∧ o.status = OrderStatus.pending then
      some ({ o with status := OrderStatus.cancelled } :: rest)
    else
      match cancelOrders rest oid with
      | some rest' => some (o :: rest')
      | none => none

/-- `cancel_order`. -/
def cancelOrder (e : Engine) (order_id : String) : Bool × Engine :=
  match cancelOrders e.account.orders order_id with
  | some l => (true, { e with account := { e.account with orders := l } })
  | none => (false, e)

/-- The mapping literal `get_account_summary` builds from the updated
engine (`win_rate` is guarded by `total_trades > 0` in the source, so
its division never raises). -/
def mkSummary (e1 : Engine) : AccountSummary :=
  { balance := e1.account.balance
    equity := e1.account.equity
    margin_used := e1.account.margin_used
    free_margin := e1.account.free_margin
    total_trades := e1.account.total_trades
    winning_trades := e1.account.winning_trades
    losing_trades := e1.account.losing_trades
    win_rate := if 0 < e1.account.total_trades then
        (e1.account.winning_trades : ℚ) / (e1.account.total_trades : ℚ)
      else 0
    total_pnl := e1.account.total_pnl
    max_drawdown := e1.account.max_drawdown
    return_pct := (e1.account.equity - e1.initial_balance) / e1.initial_balance
    positions := e1.account.positions
    open_orders := e1.account.orders.filter (fun o => o.status = OrderStatus.pending)
    created_at := e1.account.created_at
    updated_at := e1.account.updated_at }

/-- `get_account_summary`.  It first runs `_update_account_equity`
(which can itself raise, for a zero initial balance with negative
equity); building the mapping then evaluates
`return_pct = (equity - initial_balance) / initial_balance`, which
raises `ZeroDivisionError` for every engine with `initial_balance == 0`,
so such an engine never returns a mapping.  No account mutation happens
between the equity update and that raise, so the error carries the
updated engine. -/
def getAccountSummary (e : Engine) (now : ℕ) :
    Except (String × Engine) (AccountSummary × Engine) :=
  match updateAccountEquity e now with
  | Except.error pr => Except.error pr
  | Except.ok e1 =>
    if e1.initial_balance = 0 then Except.error (zeroDivMsg, e1)
    else Except.ok (mkSummary e1, e1)

/-- Engine state after a `get_account_summary` call, whether the call
returned a mapping or raised (the engine object is left in the
raise-site state either way). -/
def engineAfterSummary (e : Engine) (now : ℕ) : Engine :=
  match getAccountSummary e now with
  | Except.ok pr => pr.2
  | Except.error pr => pr.2

/-- The mapping a `get_account_summary` call returned, if it returned. -/
def summaryOf (r : Except (String × Engine) (AccountSummary × Engine)) :
    Option AccountSummary :=
  match r with
  | Except.ok pr => some pr.1
  | Except.error _ => none

/-- `get_trade_history`: Python `self.account.trade_history[-limit:]`.
For `limit = 0` the slice index is `-0 == 0`, so the slice is the whole
list; for positive `limit` it is the last `min limit length` entries.
(The claims under study only concern non-negative limits, hence `ℕ`.) -/
def getTradeHistory (e : Engine) (limit : ℕ) : List Trade :=
  if limit = 0 then e.account.trade_history
  else e.account.trade_history.drop (e.account.trade_history.length - limit)

/-- `start`. -/
def startEngine (e : Engine) : Engine := { e with is_running := true }

/-- `stop`. -/
def stopEngine (e : Engine) : Engine := { e with is_running := false }

/-! ### Traces of public operations -/

/-- One public engine operation together with the wall-clock instant at
which it runs (for the operations that read the clock). -/
inductive Cmd where
  | place (now : ℕ) (symbol : String) (side : OrderSide) (otype : OrderType)
      (quantity : ℚ) (price stop_price : Option ℚ)
  | cancel (order_id : String)
  | summary (now : ℕ)
  | history (limit : ℕ)

/-- The engine-state effect of one public operation. -/
def step (e : Engine) : Cmd → Engine
  | Cmd.place now symbol side otype q p sp => (placeOrder e now symbol side otype q p sp).2
  | Cmd.cancel oid => (cancelOrder e oid).2
  | Cmd.summary now => engineAfterSummary e now
  | Cmd.history _ => e

/-- Run a sequence of public operations. -/
def run (e : Engine) : List Cmd → Engine
  | [] => e
  | c :: cs => run (step e c) cs

/-! ### Derived notions used by the verification -/

/-- Every open position has strictly positive quantity. -/
def posInvariant (e : Engine) : Prop :=
  ∀ x ∈ e.account.positions, 0 < x.2.quantity

/-- A command places no order of non-positive quantity. -/
def cmdQtyPos : Cmd → Prop
  | Cmd.place _ _ _ _ q _ _ => 0 < q
  | Cmd.cancel _ => True
  | Cmd.summary _ => True
  | Cmd.history _ => True

instance : DecidablePred cmdQtyPos := fun c =>
  match c with
  | Cmd.place _ _ _ _ q _ _ => inferInstanceAs (Decidable (0 < q))
  | Cmd.cancel _ => inferInstanceAs (Decidable True)
  | Cmd.summary _ => inferInstanceAs (Decidable True)
  | Cmd.history _ => inferInstanceAs (Decidable True)

/-- How one stored order may change across one public operation:
unchanged, or cancelled while it was still PENDING. -/
def orderEvolves (o o' : PaperOrder) : Prop :=
  o' = o ∨ (o.status = OrderStatus.pending ∧ o' = { o with status := OrderStatus.cancelled })

/-- Cash effect of one trade-history record on the balance. -/
def tradeDelta (t : Trade) : ℚ :=
  if t.side = OrderSide.sell then t.quantity * t.price - t.commission
  else -(t.quantity * t.price + t.commission)

def netCash : List Trade → ℚ
  | [] => 0
  | t :: rest => tradeDelta t + netCash rest

/-- Cash-conservation invariant: the balance equals the initial balance
plus the net cash flow of the recorded fills, and every recorded fill
carries the commission `quantity × price × commission_rate`. -/
def cashOk (e : Engine) : Prop :=
  e.account.balance = e.initial_balance + netCash e.account.trade_history ∧
  ∀ t ∈ e.account.trade_history, t.commission = t.quantity * t.price * e.commission_rate

def buyCosts (l : List Trade) : ℚ :=
  ((l.filter (fun t => t.side = OrderSide.buy)).map (fun t => t.quantity * t.price + t.commission)).sum

def sellProceeds (l : List Trade) : ℚ :=
  ((l.filter (fun t => t.side = OrderSide.sell)).map (fun t => t.quantity * t.price - t.commission)).sum

def buyNotional (l : List Trade) : ℚ :=
  ((l.filter (fun t => t.side = OrderSide.buy)).map (fun t => t.quantity * t.price)).sum

def sellNotional (l : List Trade) : ℚ :=
  ((l.filter (fun t => t.side = OrderSide.sell)).map (fun t => t.quantity * t.price)).sum

/-- Status of the order carried by an exception, if any. -/
def errOrderStatus : Except (String × PaperOrder × Engine) (PaperOrder × Engine) → Option OrderStatus
  | Except.error (_, oR, _) => some oR.status
  | Except.ok _ => none

/-! ### Concrete instances used in counterexamples and witnesses -/

/-- A price oracle drawing no perturbation: every symbol prices at its baseline. -/
def zeroVariation : String → ℚ := fun _ => 0

/-- Engine with the constructor's default parameters (10000, commission 0.001). -/
def engA : Engine := mkEngine 10000 (1/1000) zeroVariation 0

/-- Zero-commission engine. -/
def engB : Engine := mkEngine 10000 0 zeroVariation 0

/-- Zero-commission engine after one MARKET BUY of 1.0 "A" filled at the
baseline price 100: one trade record, one long position 1.0 @ 100. -/
def engC : Engine := run engB [Cmd.place 0 "A" OrderSide.buy OrderType.market 1 none none]

/-- Engine state after one qty-0 MARKET BUY on the default engine. -/
def engA0 : Engine :=
  (placeOrder engA 0 "BTCUSDT" OrderSide.buy OrderType.market 0 none none).2

/-- Engine constructed with initial balance 0 (and commission rate 0):
any fill leaving equity negative raises in the drawdown division. -/
def engZ : Engine := mkEngine 0 0 zeroVariation 0

/-- The engine `_update_account_equity` returns for `engB` at instant 0
(no positions, equity 10000 not below the initial balance, so only
`updated_at` is stamped). -/
def engB0 : Engine :=
  { markedEngine engB with account := { (markedEngine engB).account with updated_at := 0 } }

/-- A long position of 1.0 @ 100 (symbol "A"). -/
def posBuy1At100 : PaperPosition :=
  { symbol := "A", side := OrderSide.buy, quantity := 1, entry_price := 100,
    current_price := 100, unrealized_pnl := 0, realized_pnl := 0, created_at := 0, updated_at := 0 }

/-- Engine holding exactly `posBuy1At100`, with zero commission. -/
def engD : Engine :=
  { initial_balance := 10000
    commission_rate := 0
    account := { createInitialAccount 10000 0 with positions := [("A", posBuy1At100)] }
    order_counter := 0
    is_running := false
    variation := zeroVariation
    price_cache := [("A", 100)] }

/-- A SELL order of quantity 1.5 on "A" (only symbol, side and quantity
are read by `_update_position`). -/
def sellOrder15 : PaperOrder :=
  { id := "X", symbol := "A", side := OrderSide.sell, order_type := OrderType.market,
    quantity := 3/2, price := none, stop_price := none, status := OrderStatus.pending,
    created_at := 1, filled_at := none, filled_price := none, filled_quantity := none,
    commission := 0, notes := "" }

/-- A SELL order of quantity 1 on "A". -/
def sellOrder1 : PaperOrder := { sellOrder15 with quantity := 1 }

/-! ## Lemmas: association lists -/

theorem lookupQ_append_left {l : List (String × ℚ)} {k : String} {v : ℚ}
    (h : lookupQ l k = some v) (m : List (String × ℚ)) : lookupQ (l ++ m) k = some v := by
  induction l with
  | nil => simp [lookupQ] at h
  | cons a rest ih =>
    obtain ⟨ka, va⟩ := a
    by_cases hk : ka = k
    · simp only [lookupQ, if_pos hk] at h
      simp [lookupQ, hk, h]
    · simp only [lookupQ, if_neg hk] at h
      simp [lookupQ, hk, ih h]

theorem lookupQ_append_self {l : List (String × ℚ)} {k : String} (v : ℚ)
    (h : lookupQ l k = none) : lookupQ (l ++ [(k, v)]) k = some v := by
  induction l with
  | nil => simp [lookupQ]
  | cons a rest ih =>
    obtain ⟨ka, va⟩ := a
    by_cases hk : ka = k
    · simp [lookupQ, if_pos hk] at h
    · simp only [lookupQ, if_neg hk] at h
      simp [lookupQ, hk, ih h]

theorem mem_setPos {l : List (String × PaperPosition)} {k : String} {v : PaperPosition}
    {x : String × PaperPosition} (h : x ∈ setPos l k v) : x = (k, v) ∨ x ∈ l := by
  induction l with
  | nil => simpa [setPos] using h
  | cons a rest ih =>
    obtain ⟨ka, va⟩ := a
    by_cases hk : ka = k
    · simp only [setPos, if_pos hk] at h
      rw [List.mem_cons] at h
      rcases h with h | h
      · exact Or.inl h
      · exact Or.inr (List.mem_cons_of_mem _ h)
    · simp only [setPos, if_neg hk] at h
      rw [List.mem_cons] at h
      rcases h with h | h
      · exact Or.inr (h ▸ List.mem_cons_self _ _)
      · rcases ih h with h' | h'
        · exact Or.inl h'
        · exact Or.inr (List.mem_cons_of_mem _ h')

theorem mem_delPos {l : List (String × PaperPosition)} {k : String}
    {x : String × PaperPosition} (h : x ∈ delPos l k) : x ∈ l := by
  induction l with
  | nil => simp [delPos] at h
  | cons a rest ih =>
    obtain ⟨ka, va⟩ := a
    by_cases hk : ka = k
    · simp only [delPos, if_pos hk] at h
      exact List.mem_cons_of_mem _ (ih h)
    · simp only [delPos, if_neg hk] at h
      rw [List.mem_cons] at h
      rcases h with h | h
      · exact h ▸ List.mem_cons_self _ _
      · exact List.mem_cons_of_mem _ (ih h)

theorem lookupPos_delPos_self (l : List (String × PaperPosition)) (k : String) :
    lookupPos (delPos l k) k = none := by
  induction l with
  | nil => simp [delPos, lookupPos]
  | cons a rest ih =>
    obtain ⟨ka, va⟩ := a
    by_cases hk : ka = k
    · simpa [delPos, if_pos hk] using ih
    · simpa [delPos, lookupPos, hk] using ih

theorem lookupPos_append_self {l : List (String × PaperPosition)} {k : String}
    (v : PaperPosition) (h : lookupPos l k = none) :
    lookupPos (l ++ [(k, v)]) k = some v := by
  induction l with
  | nil => simp [lookupPos]
  | cons a rest ih =>
    obtain ⟨ka, va⟩ := a
    by_cases hk : ka = k
    · simp [lookupPos, if_pos hk] at h
    · simp only [lookupPos, if_neg hk] at h
      simp [lookupPos, hk, ih h]

theorem lookupPos_mem {l : List (String × PaperPosition)} {k : String} {v : PaperPosition}
    (h : lookupPos l k = some v) : (k, v) ∈ l := by
  induction l with
  | nil => simp [lookupPos] at h
  | cons a rest ih =>
    obtain ⟨ka, va⟩ := a
    by_cases hk : ka = k
    · simp only [lookupPos, if_pos hk] at h
      obtain rfl := Option.some_inj.mp h
      exact hk ▸ List.mem_cons_self _ _
    · simp only [lookupPos, if_neg hk] at h
      exact List.mem_cons_of_mem _ (ih h)

/-! ## Lemmas: price source and position marking -/

theorem getCurrentPriceC_mono {variation : String → ℚ} {cache : List (String × ℚ)}
    {s k : String} {v : ℚ} (h : lookupQ cache k = some v) :
    lookupQ (getCurrentPriceC variation cache s).2 k = some v := by
  unfold getCurrentPriceC
  cases hc : lookupQ cache s with
  | some p => simpa [hc] using h
  | none => simpa [hc] using lookupQ_append_left h _

theorem getCurrentPriceC_lookup_self (variation : String → ℚ) (cache : List (String × ℚ))
    (s : String) :
    lookupQ (getCurrentPriceC variation cache s).2 s = some (getCurrentPriceC variation cache s).1 := by
  unfold getCurrentPriceC
  cases hc : lookupQ cache s with
  | some p => simp [hc]
  | none => simpa [hc] using lookupQ_append_self _ hc

theorem getCurrentPriceC_of_lookup {variation : String → ℚ} {cache : List (String × ℚ)}
    {s : String} {v : ℚ} (h : lookupQ cache s = some v) :
    getCurrentPriceC variation cache s = (v, cache) := by
  unfold getCurrentPriceC
  simp [h]

theorem markPositions_mono {f : String → ℚ} {k : String} {v : ℚ} :
    ∀ {cache : List (String × ℚ)} (ps : List (String × PaperPosition)),
    lookupQ cache k = some v → lookupQ (markPositions f cache ps).2.2 k = some v := by
  intro cache ps
  induction ps generalizing cache with
  | nil => intro h; simpa [markPositions] using h
  | cons a rest ih =>
    intro h
    obtain ⟨sym, pos⟩ := a
    simp only [markPositions]
    exact ih (getCurrentPriceC_mono h)

theorem markPositions_quantity {f : String → ℚ} :
    ∀ {cache : List (String × ℚ)} {ps : List (String × PaperPosition)}
    {x : String × PaperPosition}, x ∈ (markPositions f cache ps).1 →
    ∃ y ∈ ps, x.1 = y.1 ∧ x.2.quantity = y.2.quantity := by
  intro cache ps
  induction ps generalizing cache with
  | nil => intro x hx; simp [markPositions] at hx
  | cons a rest ih =>
    intro x hx
    obtain ⟨sym, pos⟩ := a
    simp only [markPositions] at hx
    rw [List.mem_cons] at hx
    rcases hx with hx | hx
    · exact ⟨(sym, pos), List.mem_cons_self _ _, by simp [hx]⟩
    · obtain ⟨y, hy, h1, h2⟩ := ih hx
      exact ⟨y, List.mem_cons_of_mem _ hy, h1, h2⟩

theorem markPositions_stable {variation : String → ℚ} :
    ∀ {cache : List (String × ℚ)} (ps : List (String × PaperPosition)),
    markPositions variation (markPositions variation cache ps).2.2 (markPositions variation cache ps).1 =
      markPositions variation cache ps := by
  intro cache ps
  induction ps generalizing cache with
  | nil => simp [markPositions]
  | cons a rest ih =>
    obtain ⟨sym, pos⟩ := a
    have hself := getCurrentPriceC_lookup_self variation cache sym
    have hmono := markPositions_mono (f := variation)
      (k := sym) (v := (getCurrentPriceC variation cache sym).1) rest hself
    conv_lhs => rw [markPositions, markPositions]
    rw [getCurrentPriceC_of_lookup hmono]
    simp only
    rw [ih]
    simp [markPositions]

/-! ## Lemmas: equity update -/

theorem markedEngine_frame (e : Engine) :
    (markedEngine e).initial_balance = e.initial_balance ∧
    (markedEngine e).commission_rate = e.commission_rate ∧
    (markedEngine e).variation = e.variation ∧
    (markedEngine e).order_counter = e.order_counter ∧
    (markedEngine e).is_running = e.is_running ∧
    (markedEngine e).account.balance = e.account.balance ∧
    (markedEngine e).account.orders = e.account.orders ∧
    (markedEngine e).account.trade_history = e.account.trade_history ∧
    (markedEngine e).account.total_trades = e.account.total_trades ∧
    (markedEngine e).account.winning_trades = e.account.winning_trades ∧
    (markedEngine e).account.losing_trades = e.account.losing_trades ∧
    (markedEngine e).account.total_pnl = e.account.total_pnl ∧
    (markedEngine e).account.created_at = e.account.created_at ∧
    (markedEngine e).account.margin_used = e.account.margin_used ∧
    (markedEngine e).account.free_margin = e.account.free_margin ∧
    (markedEngine e).account.max_drawdown = e.account.max_drawdown ∧
    (markedEngine e).account.updated_at = e.account.updated_at :=
  ⟨rfl, rfl, rfl, rfl, rfl, rfl, rfl, rfl, rfl, rfl, rfl, rfl, rfl, rfl, rfl, rfl, rfl⟩

theorem markedEngine_posInv {e : Engine} (h : posInvariant e) :
    posInvariant (markedEngine e) := by
  intro x hx
  obtain ⟨y, hy, _, hq⟩ := markPositions_quantity (f := e.variation) hx
  rw [hq]
  exact h y hy

theorem updateAccountEquity_raise_eq {e : Engine} (t : ℕ)
    (hlt : (markedEngine e).account.equity < e.initial_balance)
    (hz : e.initial_balance = 0) :
    updateAccountEquity e t = Except.error (zeroDivMsg, markedEngine e) := by
  simp only [updateAccountEquity]
  rw [if_pos hlt, if_pos hz]

theorem updateAccountEquity_ok_lt_eq {e : Engine} (t : ℕ)
    (hlt : (markedEngine e).account.equity < e.initial_balance)
    (hz : ¬ e.initial_balance = 0) :
    updateAccountEquity e t = Except.ok { markedEngine e with
      account := { (markedEngine e).account with
        max_drawdown := max (markedEngine e).account.max_drawdown
          ((e.initial_balance - (markedEngine e).account.equity) / e.initial_balance)
        updated_at := t } } := by
  simp only [updateAccountEquity]
  rw [if_pos hlt, if_neg hz]

theorem updateAccountEquity_ok_ge_eq {e : Engine} (t : ℕ)
    (hge : ¬ (markedEngine e).account.equity < e.initial_balance) :
    updateAccountEquity e t = Except.ok { markedEngine e with
      account := { (markedEngine e).account with updated_at := t } } := by
  simp only [updateAccountEquity]
  rw [if_neg hge]

theorem updateAccountEquity_err_spec {e eE : Engine} {t : ℕ} {msg : String}
    (h : updateAccountEquity e t = Except.error (msg, eE)) :
    msg = zeroDivMsg ∧ eE = markedEngine e ∧ e.initial_balance = 0 ∧
      (markedEngine e).account.equity < e.initial_balance := by
  by_cases hlt : (markedEngine e).account.equity < e.initial_balance
  · by_cases hz : e.initial_balance = 0
    · rw [updateAccountEquity_raise_eq t hlt hz] at h
      injection h with h1
      obtain ⟨h2, h3⟩ := Prod.mk.injEq .. ▸ h1
      exact ⟨h2.symm, h3.symm, hz, hlt⟩
    · rw [updateAccountEquity_ok_lt_eq t hlt hz] at h
      exact Except.noConfusion h
  · rw [updateAccountEquity_ok_ge_eq t hlt] at h
    exact Except.noConfusion h

theorem updateAccountEquity_ok_of_nonzero {e : Engine} (t : ℕ)
    (hib : e.initial_balance ≠ 0) :
    ∃ e', updateAccountEquity e t = Except.ok e' := by
  by_cases hlt : (markedEngine e).account.equity < e.initial_balance
  · exact ⟨_, updateAccountEquity_ok_lt_eq t hlt hib⟩
  · exact ⟨_, updateAccountEquity_ok_ge_eq t hlt⟩

theorem updateAccountEquity_ok_frame {e e' : Engine} {t : ℕ}
    (h : updateAccountEquity e t = Except.ok e') :
    e'.initial_balance = e.initial_balance ∧
    e'.commission_rate = e.commission_rate ∧
    e'.variation = e.variation ∧
    e'.order_counter = e.order_counter ∧
    e'.is_running = e.is_running ∧
    e'.account.balance = e.account.balance ∧
    e'.account.orders = e.account.orders ∧
    e'.account.trade_history = e.account.trade_history ∧
    e'.account.total_trades = e.account.total_trades ∧
    e'.account.winning_trades = e.account.winning_trades ∧
    e'.account.losing_trades = e.account.losing_trades ∧
    e'.account.total_pnl = e.account.total_pnl ∧
    e'.account.created_at = e.account.created_at ∧
    e'.account.margin_used = e.account.margin_used ∧
    e'.account.free_margin = e.account.free_margin := by
  by_cases hlt : (markedEngine e).account.equity < e.initial_balance
  · by_cases hz : e.initial_balance = 0
    · rw [updateAccountEquity_raise_eq t hlt hz] at h
      exact Except.noConfusion h
    · rw [updateAccountEquity_ok_lt_eq t hlt hz] at h
      injection h with h1
      subst h1
      exact ⟨rfl, rfl, rfl, rfl, rfl, rfl, rfl, rfl, rfl, rfl, rfl, rfl, rfl, rfl, rfl⟩
  · rw [updateAccountEquity_ok_ge_eq t hlt] at h
    injection h with h1
    subst h1
    exact ⟨rfl, rfl, rfl, rfl, rfl, rfl, rfl, rfl, rfl, rfl, rfl, rfl, rfl, rfl, rfl⟩

theorem updateAccountEquity_ok_spec {e e' : Engine} {t : ℕ}
    (h : updateAccountEquity e t = Except.ok e') :
    e'.account.positions = (markedEngine e).account.positions ∧
    e'.account.equity = (markedEngine e).account.equity ∧
    e'.price_cache = (markedEngine e).price_cache ∧
    e'.account.updated_at = t := by
  by_cases hlt : (markedEngine e).account.equity < e.initial_balance
  · by_cases hz : e.initial_balance = 0
    · rw [updateAccountEquity_raise_eq t hlt hz] at h
      exact Except.noConfusion h
    · rw [updateAccountEquity_ok_lt_eq t hlt hz] at h
      injection h with h1
      subst h1
      exact ⟨rfl, rfl, rfl, rfl⟩
  · rw [updateAccountEquity_ok_ge_eq t hlt] at h
    injection h with h1
    subst h1
    exact ⟨rfl, rfl, rfl, rfl⟩

theorem updateAccountEquity_ok_drawdown {e e' : Engine} {t : ℕ}
    (h : updateAccountEquity e t = Except.ok e') :
    e'.account.max_drawdown =
      (if e'.account.equity < e.initial_balance then
        max e.account.max_drawdown
          ((e.initial_balance - e'.account.equity) / e.initial_balance)
      else e.account.max_drawdown) := by
  obtain ⟨_, heq, _, _⟩ := updateAccountEquity_ok_spec h
  by_cases hlt : (markedEngine e).account.equity < e.initial_balance
  · by_cases hz : e.initial_balance = 0
    · rw [updateAccountEquity_raise_eq t hlt hz] at h
      exact Except.noConfusion h
    · rw [updateAccountEquity_ok_lt_eq t hlt hz] at h
      injection h with h1
      subst h1
      rw [heq]
      simp only [if_pos hlt]
      rfl
  · rw [updateAccountEquity_ok_ge_eq t hlt] at h
    injection h with h1
    subst h1
    rw [heq]
    simp only [if_neg hlt]
    rfl

theorem updateAccountEquity_ok_dd_mono {e e' : Engine} {t : ℕ}
    (h : updateAccountEquity e t = Except.ok e') :
    e.account.max_drawdown ≤ e'.account.max_drawdown := by
  rw [updateAccountEquity_ok_drawdown h]
  split
  · exact le_max_left _ _
  · exact le_rfl

theorem updateAccountEquity_ok_posInv {e e' : Engine} {t : ℕ}
    (h : updateAccountEquity e t = Except.ok e') (hp : posInvariant e) :
    posInvariant e' := by
  intro x hx
  rw [(updateAccountEquity_ok_spec h).1] at hx
  exact markedEngine_posInv hp x hx

/-! ## Lemmas: position netting (branch equations for `updatePosition`) -/

theorem updatePosition_new {e : Engine} {t : ℕ} {o : PaperOrder} {fp : ℚ}
    (hl : lookupPos e.account.positions o.symbol = none) :
    updatePosition e t o fp = Except.ok { e with account := { e.account with
      positions := e.account.positions ++
        [(o.symbol, newPosition o.symbol o.side o.quantity fp t)] } } := by
  simp [updatePosition, hl]

theorem updatePosition_same_zero {e : Engine} {t : ℕ} {o : PaperOrder} {fp : ℚ}
    {pos : PaperPosition} (hl : lookupPos e.account.positions o.symbol = some pos)
    (hs : pos.side = o.side) (hz : pos.quantity + o.quantity = 0) :
    updatePosition e t o fp = Except.error zeroDivMsg := by
  simp [updatePosition, hl, hs, hz]

theorem updatePosition_same {e : Engine} {t : ℕ} {o : PaperOrder} {fp : ℚ}
    {pos : PaperPosition} (hl : lookupPos e.account.positions o.symbol = some pos)
    (hs : pos.side = o.side) (hz : pos.quantity + o.quantity ≠ 0) :
    updatePosition e t o fp = Except.ok { e with account := { e.account with
      positions := setPos e.account.positions o.symbol
        { pos with
          entry_price := (pos.quantity * pos.entry_price + o.quantity * fp) /
            (pos.quantity + o.quantity)
          quantity := pos.quantity + o.quantity
          updated_at := t } } } := by
  simp [updatePosition, hl, hs, hz]

theorem updatePosition_flip {e : Engine} {t : ℕ} {o : PaperOrder} {fp : ℚ}
    {pos : PaperPosition} (hl : lookupPos e.account.positions o.symbol = some pos)
    (hs : ¬ pos.side = o.side) (hge : pos.quantity ≤ o.quantity)
    (hrem : 0 < o.quantity - pos.quantity) :
    updatePosition e t o fp = Except.ok { e with account := { e.account with
      positions := delPos e.account.positions o.symbol ++
        [(o.symbol, newPosition o.symbol o.side (o.quantity - pos.quantity) fp t)]
      winning_trades := if 0 < calcRealizedPnl pos fp pos.quantity then
        e.account.winning_trades + 1 else e.account.winning_trades
      losing_trades := if 0 < calcRealizedPnl pos fp pos.quantity then
        e.account.losing_trades else e.account.losing_trades + 1
      total_pnl := e.account.total_pnl + calcRealizedPnl pos fp pos.quantity } } := by
  simp [updatePosition, hl, hs, hge, hrem]

theorem updatePosition_fullclose {e : Engine} {t : ℕ} {o : PaperOrder} {fp : ℚ}
    {pos : PaperPosition} (hl : lookupPos e.account.positions o.symbol = some pos)
    (hs : ¬ pos.side = o.side) (hge : pos.quantity ≤ o.quantity)
    (hrem : ¬ 0 < o.quantity - pos.quantity) :
    updatePosition e t o fp = Except.ok { e with account := { e.account with
      positions := delPos e.account.positions o.symbol
      winning_trades := if 0 < calcRealizedPnl pos fp pos.quantity then
        e.account.winning_trades + 1 else e.account.winning_trades
      losing_trades := if 0 < calcRealizedPnl pos fp pos.quantity then
        e.account.losing_trades else e.account.losing_trades + 1
      total_pnl := e.account.total_pnl + calcRealizedPnl pos fp pos.quantity } } := by
  simp [updatePosition, hl, hs, hge, hrem]

theorem updatePosition_partClose {e : Engine} {t : ℕ} {o : PaperOrder} {fp : ℚ}
    {pos : PaperPosition} (hl : lookupPos e.account.positions o.symbol = some pos)
    (hs : ¬ pos.side = o.side) (hlt : ¬ pos.quantity ≤ o.quantity) :
    updatePosition e t o fp = Except.ok { e with account := { e.account with
      positions := setPos e.account.positions o.symbol
        { pos with
          realized_pnl := pos.realized_pnl + calcRealizedPnl pos fp o.quantity
          quantity := pos.quantity - o.quantity
          updated_at := t }
      winning_trades := if 0 < calcRealizedPnl pos fp o.quantity then
        e.account.winning_trades + 1 else e.account.winning_trades
      losing_trades := if 0 < calcRealizedPnl pos fp o.quantity then
        e.account.losing_trades else e.account.losing_trades + 1
      total_pnl := e.account.total_pnl + calcRealizedPnl pos fp o.quantity } } := by
  simp [updatePosition, hl, hs, hlt]

theorem updatePosition_frame {e e' : Engine} {t : ℕ} {o : PaperOrder} {fp : ℚ}
    (h : updatePosition e t o fp = Except.ok e') :
    e'.initial_balance = e.initial_balance ∧ e'.commission_rate = e.commission_rate ∧
    e'.variation = e.variation ∧ e'.price_cache = e.price_cache ∧
    e'.order_counter = e.order_counter ∧ e'.is_running = e.is_running ∧
    e'.account.balance = e.account.balance ∧ e'.account.orders = e.account.orders ∧
    e'.account.trade_history = e.account.trade_history ∧
    e'.account.total_trades = e.account.total_trades ∧
    e'.account.max_drawdown = e.account.max_drawdown ∧
    e'.account.equity = e.account.equity ∧
    e'.account.created_at = e.account.created_at ∧
    e'.account.margin_used = e.account.margin_used ∧
    e'.account.free_margin = e.account.free_margin := by
  cases hl : lookupPos e.account.positions o.symbol with
  | none =>
    rw [updatePosition_new hl] at h
    injection h with h2
    subst h2
    exact ⟨rfl, rfl, rfl, rfl, rfl, rfl, rfl, rfl, rfl, rfl, rfl, rfl, rfl, rfl, rfl⟩
  | some pos =>
    by_cases hs : pos.side = o.side
    · by_cases hz : pos.quantity + o.quantity = 0
      · rw [updatePosition_same_zero hl hs hz] at h
        exact Except.noConfusion h
      · rw [updatePosition_same hl hs hz] at h
        injection h with h2
        subst h2
        exact ⟨rfl, rfl, rfl, rfl, rfl, rfl, rfl, rfl, rfl, rfl, rfl, rfl, rfl, rfl, rfl⟩
    · by_cases hge : pos.quantity ≤ o.quantity
      · by_cases hrem : 0 < o.quantity - pos.quantity
        · rw [updatePosition_flip hl hs hge hrem] at h
          injection h with h2
          subst h2
          exact ⟨rfl, rfl, rfl, rfl, rfl, rfl, rfl, rfl, rfl, rfl, rfl, rfl, rfl, rfl, rfl⟩
        · rw [updatePosition_fullclose hl hs hge hrem] at h
          injection h with h2
          subst h2
          exact ⟨rfl, rfl, rfl, rfl, rfl, rfl, rfl, rfl, rfl, rfl, rfl, rfl, rfl, rfl, rfl⟩
      · rw [updatePosition_partClose hl hs hge] at h
        injection h with h2
        subst h2
        exact ⟨rfl, rfl, rfl, rfl, rfl, rfl, rfl, rfl, rfl, rfl, rfl, rfl, rfl, rfl, rfl⟩

theorem updatePosition_ok_of_pos {e : Engine} (t : ℕ) {o : PaperOrder} (fp : ℚ)
    (hq : 0 < o.quantity) (hinv : posInvariant e) :
    ∃ e', updatePosition e t o fp = Except.ok e' := by
  cases hl : lookupPos e.account.positions o.symbol with
  | none => exact ⟨_, updatePosition_new hl⟩
  | some pos =>
    have hp : 0 < pos.quantity := hinv _ (lookupPos_mem hl)
    by_cases hs : pos.side = o.side
    · have hz : pos.quantity + o.quantity ≠ 0 := by positivity
      exact ⟨_, updatePosition_same hl hs hz⟩
    · by_cases hge : pos.quantity ≤ o.quantity
      · by_cases hrem : 0 < o.quantity - pos.quantity
        · exact ⟨_, updatePosition_flip hl hs hge hrem⟩
        · exact ⟨_, updatePosition_fullclose hl hs hge hrem⟩
      · exact ⟨_, updatePosition_partClose hl hs hge⟩

theorem updatePosition_posInv {e e' : Engine} {t : ℕ} {o : PaperOrder} {fp : ℚ}
    (hq : 0 < o.quantity) (hinv : posInvariant e)
    (h : updatePosition e t o fp = Except.ok e') : posInvariant e' := by
  cases hl : lookupPos e.account.positions o.symbol with
  | none =>
    rw [updatePosition_new hl] at h
    injection h with h2
    subst h2
    intro x hx
    rw [List.mem_append] at hx
    rcases hx with hx | hx
    · exact hinv x hx
    · rw [List.mem_singleton] at hx
      subst hx
      exact hq
  | some pos =>
    have hp : 0 < pos.quantity := hinv _ (lookupPos_mem hl)
    by_cases hs : pos.side = o.side
    · by_cases hz : pos.quantity + o.quantity = 0
      · rw [updatePosition_same_zero hl hs hz] at h
        exact Except.noConfusion h
      · rw [updatePosition_same hl hs hz] at h
        injection h with h2
        subst h2
        intro x hx
        rcases mem_setPos hx with hx | hx
        · subst hx
          exact add_pos hp hq
        · exact hinv x hx
    · by_cases hge : pos.quantity ≤ o.quantity
      · by_cases hrem : 0 < o.quantity - pos.quantity
        · rw [updatePosition_flip hl hs hge hrem] at h
          injection h with h2
          subst h2
          intro x hx
          rw [List.mem_append] at hx
          rcases hx with hx | hx
          · exact hinv x (mem_delPos hx)
          · rw [List.mem_singleton] at hx
            subst hx
            exact hrem
        · rw [updatePosition_fullclose hl hs hge hrem] at h
          injection h with h2
          subst h2
          intro x hx
          exact hinv x (mem_delPos hx)
      · rw [updatePosition_partClose hl hs hge] at h
        injection h with h2
        subst h2
        intro x hx
        rcases mem_setPos hx with hx | hx
        · subst hx
          simpa using sub_pos.mpr (lt_of_not_le hge)
        · exact hinv x hx

theorem updatePosition_close {e : Engine} (t : ℕ) {o : PaperOrder} (fp : ℚ)
    {pos : PaperPosition} (hl : lookupPos e.account.positions o.symbol = some pos)
    (hs : ¬ pos.side = o.side) :
    ∃ e', updatePosition e t o fp = Except.ok e' ∧
      e'.account.total_pnl =
        e.account.total_pnl + calcRealizedPnl pos fp (min o.quantity pos.quantity) ∧
      e'.account.winning_trades =
        (if 0 < calcRealizedPnl pos fp (min o.quantity pos.quantity) then
          e.account.winning_trades + 1 else e.account.winning_trades) ∧
      e'.account.losing_trades =
        (if 0 < calcRealizedPnl pos fp (min o.quantity pos.quantity) then
          e.account.losing_trades else e.account.losing_trades + 1) ∧
      (pos.quantity ≤ o.quantity →
        lookupPos e'.account.positions o.symbol =
          (if pos.quantity < o.quantity then
            some (newPosition o.symbol o.side (o.quantity - pos.quantity) fp t) else none)) := by
  by_cases hge : pos.quantity ≤ o.quantity
  · have hmin : min o.quantity pos.quantity = pos.quantity := min_eq_right hge
    by_cases hrem : 0 < o.quantity - pos.quantity
    · have hlt : pos.quantity < o.quantity := by linarith [sub_pos.mp hrem]
      refine ⟨_, updatePosition_flip hl hs hge hrem, by simp [hmin], by simp [hmin],
        by simp [hmin], fun _ => ?_⟩
      rw [if_pos hlt]
      exact lookupPos_append_self _ (lookupPos_delPos_self _ _)
    · have heq : o.quantity = pos.quantity := by
        have := not_lt.mp hrem
        linarith
      have hnlt : ¬ pos.quantity < o.quantity := by rw [heq]; exact lt_irrefl _
      refine ⟨_, updatePosition_fullclose hl hs hge hrem, by simp [hmin], by simp [hmin],
        by simp [hmin], fun _ => ?_⟩
      rw [if_neg hnlt]
      exact lookupPos_delPos_self _ _
  · have hmin : min o.quantity pos.quantity = o.quantity :=
      min_eq_left (le_of_lt (lt_of_not_le hge))
    exact ⟨_, updatePosition_partClose hl hs hge, by simp [hmin], by simp [hmin],
      by simp [hmin], fun hc => absurd hc hge⟩

theorem netCash_append (l : List Trade) (t : Trade) :
    netCash (l ++ [t]) = netCash l + tradeDelta t := by
  induction l with
  | nil => simp [netCash]
  | cons a rest ih =>
    simp only [netCash, List.cons_append, List.append_eq, ih]
    ring

theorem cashOk_transport {d e : Engine}
    (hb : d.account.balance = e.account.balance)
    (hi : d.initial_balance = e.initial_balance)
    (ht : d.account.trade_history = e.account.trade_history)
    (hc : d.commission_rate = e.commission_rate)
    (h : cashOk e) : cashOk d := by
  constructor
  · rw [hb, hi, ht]
    exact h.1
  · intro x hx
    rw [ht] at hx
    rw [hc]
    exact h.2 x hx

theorem cashOk_append_trade {d e : Engine} (tr : Trade)
    (hb : d.account.balance = e.account.balance + tradeDelta tr)
    (hi : d.initial_balance = e.initial_balance)
    (ht : d.account.trade_history = e.account.trade_history ++ [tr])
    (hc : d.commission_rate = e.commission_rate)
    (hcomm : tr.commission = tr.quantity * tr.price * e.commission_rate)
    (h : cashOk e) : cashOk d := by
  constructor
  · rw [hb, hi, ht, netCash_append, h.1]
    ring
  · intro x hx
    rw [ht, List.mem_append] at hx
    rcases hx with hx | hx
    · rw [hc]
      exact h.2 x hx
    · rw [List.mem_singleton] at hx
      subst hx
      rw [hc]
      exact hcomm

/-! ## Lemmas: fill pipeline -/

theorem getCurrentPrice_account (e : Engine) (s : String) :
    (getCurrentPrice e s).2.account = e.account := rfl

theorem getCurrentPrice_frame (e : Engine) (s : String) :
    (getCurrentPrice e s).2.initial_balance = e.initial_balance ∧
    (getCurrentPrice e s).2.commission_rate = e.commission_rate ∧
    (getCurrentPrice e s).2.variation = e.variation ∧
    (getCurrentPrice e s).2.order_counter = e.order_counter :=
  ⟨rfl, rfl, rfl, rfl⟩

theorem fillOrder_ok_eq {e e1 e3 : Engine} {t : ℕ} {o : PaperOrder} {fp : ℚ}
    (h : updatePosition e t (fillMark e t o fp) fp = Except.ok e1)
    (h2 : updateAccountEquity (applyFill e1 e t o fp) t = Except.ok e3) :
    fillOrder e t o fp = Except.ok (fillMark e t o fp, e3) := by
  unfold fillMark at h
  simp only [applyFill, fillTrade] at h2
  simp [fillOrder, h, h2, fillMark, fillTrade, applyFill]

theorem fillOrder_err2_eq {e e1 eE : Engine} {t : ℕ} {o : PaperOrder} {fp : ℚ} {msg : String}
    (h : updatePosition e t (fillMark e t o fp) fp = Except.ok e1)
    (h2 : updateAccountEquity (applyFill e1 e t o fp) t = Except.error (msg, eE)) :
    fillOrder e t o fp = Except.error (msg, fillMark e t o fp, eE) := by
  unfold fillMark at h
  simp only [applyFill, fillTrade] at h2
  simp [fillOrder, h, h2, fillMark, fillTrade, applyFill]

theorem fillOrder_err_eq {e : Engine} {t : ℕ} {o : PaperOrder} {fp : ℚ} {msg : String}
    (h : updatePosition e t (fillMark e t o fp) fp = Except.error msg) :
    fillOrder e t o fp = Except.error (msg, fillMark e t o fp, e) := by
  unfold fillMark at h
  simp [fillOrder, h, fillMark]

theorem fillOrder_ok_spec {e e' : Engine} {t : ℕ} {o o' : PaperOrder} {fp : ℚ}
    (h : fillOrder e t o fp = Except.ok (o', e')) :
    ∃ e1, updatePosition e t (fillMark e t o fp) fp = Except.ok e1 ∧
      o' = fillMark e t o fp ∧
      updateAccountEquity (applyFill e1 e t o fp) t = Except.ok e' := by
  cases hu : updatePosition e t (fillMark e t o fp) fp with
  | error m =>
    rw [fillOrder_err_eq hu] at h
    exact Except.noConfusion h
  | ok e1 =>
    cases hu2 : updateAccountEquity (applyFill e1 e t o fp) t with
    | error pr =>
      obtain ⟨m2, eE⟩ := pr
      rw [fillOrder_err2_eq hu hu2] at h
      exact Except.noConfusion h
    | ok e3 =>
      rw [fillOrder_ok_eq hu hu2] at h
      injection h with h2
      obtain ⟨h3, h4⟩ := Prod.mk.injEq .. ▸ h2
      refine ⟨e1, rfl, h3.symm, ?_⟩
      rw [h4] at hu2
      exact hu2

theorem fillOrder_err_spec {e eR : Engine} {t : ℕ} {o oR : PaperOrder} {fp : ℚ} {msg : String}
    (h : fillOrder e t o fp = Except.error (msg, oR, eR)) :
    oR = fillMark e t o fp ∧
      (eR = e ∨ ∃ e1, updatePosition e t (fillMark e t o fp) fp = Except.ok e1 ∧
        updateAccountEquity (applyFill e1 e t o fp) t = Except.error (msg, eR)) := by
  cases hu : updatePosition e t (fillMark e t o fp) fp with
  | error m =>
    rw [fillOrder_err_eq hu] at h
    injection h with h2
    obtain ⟨h3, h4⟩ := Prod.mk.injEq .. ▸ h2
    obtain ⟨h5, h6⟩ := Prod.mk.injEq .. ▸ h4
    exact ⟨h5.symm, Or.inl h6.symm⟩
  | ok e1 =>
    cases hu2 : updateAccountEquity (applyFill e1 e t o fp) t with
    | error pr =>
      obtain ⟨m2, eE⟩ := pr
      rw [fillOrder_err2_eq hu hu2] at h
      injection h with h2
      obtain ⟨h3, h4⟩ := Prod.mk.injEq .. ▸ h2
      obtain ⟨h5, h6⟩ := Prod.mk.injEq .. ▸ h4
      refine ⟨h5.symm, Or.inr ⟨e1, rfl, ?_⟩⟩
      rw [h3, h6] at hu2
      exact hu2
    | ok e3 =>
      rw [fillOrder_ok_eq hu hu2] at h
      exact Except.noConfusion h

theorem applyFill_fields {e e1 : Engine} (t : ℕ) (o : PaperOrder) (fp : ℚ)
    (hu : updatePosition e t (fillMark e t o fp) fp = Except.ok e1) :
    (applyFill e1 e t o fp).initial_balance = e.initial_balance ∧
    (applyFill e1 e t o fp).commission_rate = e.commission_rate ∧
    (applyFill e1 e t o fp).account.orders = e.account.orders ∧
    (applyFill e1 e t o fp).account.max_drawdown = e.account.max_drawdown ∧
    (applyFill e1 e t o fp).account.trade_history =
      e.account.trade_history ++ [fillTrade e t o fp] ∧
    (applyFill e1 e t o fp).account.balance =
      e.account.balance + tradeDelta (fillTrade e t o fp) := by
  obtain ⟨hib, hcr, _, _, _, _, hbal, hord, hth, _, hdd, _⟩ := updatePosition_frame hu
  refine ⟨hib, hcr, hord, hdd, ?_, ?_⟩
  · show e1.account.trade_history ++ [fillTrade e t o fp] =
      e.account.trade_history ++ [fillTrade e t o fp]
    rw [hth]
  · show (if o.side = OrderSide.buy then
        e1.account.balance - (o.quantity * fp + calcCommission e o.quantity fp)
      else e1.account.balance + (o.quantity * fp - calcCommission e o.quantity fp)) =
      e.account.balance + tradeDelta (fillTrade e t o fp)
    rw [hbal]
    simp only [tradeDelta, fillTrade, calcCommission]
    cases hside : o.side with
    | buy =>
      simp [hside]
      ring
    | sell => simp [hside]

theorem applyFill_cash {e e1 : Engine} (t : ℕ) (o : PaperOrder) (fp : ℚ)
    (hu : updatePosition e t (fillMark e t o fp) fp = Except.ok e1)
    (hc : cashOk e) : cashOk (applyFill e1 e t o fp) := by
  obtain ⟨hib, hcr, _, _, hth, hbal⟩ := applyFill_fields t o fp hu
  exact cashOk_append_trade (fillTrade e t o fp) hbal hib hth hcr rfl hc

theorem fillOrder_no_err {e : Engine} (t : ℕ) {o : PaperOrder} (fp : ℚ)
    (hq : 0 < o.quantity) (hinv : posInvariant e) (hib : e.initial_balance ≠ 0)
    {x : String × PaperOrder × Engine} :
    fillOrder e t o fp ≠ Except.error x := by
  obtain ⟨e1, hu⟩ := updatePosition_ok_of_pos (o := fillMark e t o fp) t fp hq hinv
  have hib2 : (applyFill e1 e t o fp).initial_balance ≠ 0 := by
    have ha : (applyFill e1 e t o fp).initial_balance = e.initial_balance :=
      (applyFill_fields t o fp hu).1
    rw [ha]
    exact hib
  obtain ⟨e3, hu2⟩ := updateAccountEquity_ok_of_nonzero t hib2
  rw [fillOrder_ok_eq hu hu2]
  exact fun hc => Except.noConfusion hc

theorem fillOrder_ok_status {e e' : Engine} {t : ℕ} {o o' : PaperOrder} {fp : ℚ}
    (h : fillOrder e t o fp = Except.ok (o', e')) : o'.status = OrderStatus.filled := by
  obtain ⟨e1, _, h3, _⟩ := fillOrder_ok_spec h
  rw [h3]
  rfl

theorem fillOrder_orders {e e' : Engine} {t : ℕ} {o o' : PaperOrder} {fp : ℚ}
    (h : fillOrder e t o fp = Except.ok (o', e')) :
    e'.account.orders = e.account.orders := by
  obtain ⟨e1, hu, _, h4⟩ := fillOrder_ok_spec h
  have ho := (updateAccountEquity_ok_frame h4).2.2.2.2.2.2.1
  rw [ho]
  exact (applyFill_fields t o fp hu).2.2.1

theorem fillOrder_dd {e e' : Engine} {t : ℕ} {o o' : PaperOrder} {fp : ℚ}
    (h : fillOrder e t o fp = Except.ok (o', e')) :
    e.account.max_drawdown ≤ e'.account.max_drawdown := by
  obtain ⟨e1, hu, _, h4⟩ := fillOrder_ok_spec h
  have hmono := updateAccountEquity_ok_dd_mono h4
  rw [(applyFill_fields t o fp hu).2.2.2.1] at hmono
  exact hmono

theorem fillOrder_posInv {e e' : Engine} {t : ℕ} {o o' : PaperOrder} {fp : ℚ}
    (hq : 0 < o.quantity) (hinv : posInvariant e)
    (h : fillOrder e t o fp = Except.ok (o', e')) : posInvariant e' := by
  obtain ⟨e1, hu, _, h4⟩ := fillOrder_ok_spec h
  have hinv1 : posInvariant e1 := updatePosition_posInv hq hinv hu
  have hinv2 : posInvariant (applyFill e1 e t o fp) := fun x hx => hinv1 x hx
  exact updateAccountEquity_ok_posInv h4 hinv2

theorem fillOrder_cash {e e' : Engine} {t : ℕ} {o o' : PaperOrder} {fp : ℚ}
    (h : fillOrder e t o fp = Except.ok (o', e')) :
    ∃ tr : Trade, tr.commission = tr.quantity * tr.price * e.commission_rate ∧
      e'.account.trade_history = e.account.trade_history ++ [tr] ∧
      e'.account.balance = e.account.balance + tradeDelta tr ∧
      e'.initial_balance = e.initial_balance ∧ e'.commission_rate = e.commission_rate := by
  obtain ⟨e1, hu, _, h4⟩ := fillOrder_ok_spec h
  obtain ⟨haib, hacr, _, _, hath, habal⟩ := applyFill_fields t o fp hu
  obtain ⟨hfib, hfcr, _, _, _, hfbal, _, hfth, _⟩ := updateAccountEquity_ok_frame h4
  refine ⟨fillTrade e t o fp, rfl, ?_, ?_, ?_, ?_⟩
  · rw [hfth, hath]
  · rw [hfbal, habal]
  · rw [hfib, haib]
  · rw [hfcr, hacr]

theorem fillOrder_err_fields {e eR : Engine} {t : ℕ} {o oR : PaperOrder} {fp : ℚ} {msg : String}
    (h : fillOrder e t o fp = Except.error (msg, oR, eR)) :
    oR.status = OrderStatus.filled ∧
    eR.initial_balance = e.initial_balance ∧
    eR.commission_rate = e.commission_rate ∧
    eR.account.orders = e.account.orders ∧
    e.account.max_drawdown ≤ eR.account.max_drawdown ∧
    (0 < o.quantity → posInvariant e → posInvariant eR) ∧
    (cashOk e → cashOk eR) := by
  obtain ⟨ho, hcase⟩ := fillOrder_err_spec h
  subst ho
  refine ⟨rfl, ?_⟩
  rcases hcase with heq | ⟨e1, hu, hu2⟩
  · subst heq
    exact ⟨rfl, rfl, rfl, le_rfl, fun _ hi => hi, fun hc => hc⟩
  · have hE : eR = markedEngine (applyFill e1 e t o fp) :=
      (updateAccountEquity_err_spec hu2).2.1
    obtain ⟨haib, hacr, hord, hdd, hth, hbal⟩ := applyFill_fields t o fp hu
    subst hE
    refine ⟨haib, hacr, hord, le_of_eq hdd.symm, ?_, ?_⟩
    · intro hq hi
      have h1 : posInvariant e1 := updatePosition_posInv hq hi hu
      have h2 : posInvariant (applyFill e1 e t o fp) := fun x hx => h1 x hx
      exact markedEngine_posInv h2
    · intro hc
      have h2 : cashOk (applyFill e1 e t o fp) := applyFill_cash t o fp hu hc
      exact cashOk_transport rfl rfl rfl rfl h2

/-! ## Lemmas: order execution -/

theorem executeOrder_err_spec {e eR : Engine} {t : ℕ} {o oR : PaperOrder} {msg : String}
    (h : executeOrder e t o = Except.error (msg, oR, eR)) :
    (oR = o ∧ eR = (getCurrentPrice e o.symbol).2 ∧ msg = noneCmpMsg) ∨
    (∃ fp, fillOrder (getCurrentPrice e o.symbol).2 t o fp = Except.error (msg, oR, eR)) := by
  cases hot : o.order_type with
  | market =>
    simp only [executeOrder, hot] at h
    exact Or.inr ⟨_, h⟩
  | limit =>
    simp only [executeOrder, hot] at h
    cases hp : o.price with
    | none =>
      simp only [hp] at h
      injection h with h2
      obtain ⟨h3, h4⟩ := Prod.mk.injEq .. ▸ h2
      obtain ⟨h5, h6⟩ := Prod.mk.injEq .. ▸ h4
      exact Or.inl ⟨h5.symm, h6.symm, h3.symm⟩
    | some p =>
      simp only [hp] at h
      split_ifs at h
      all_goals exact Or.inr ⟨_, h⟩
  | stop =>
    simp only [executeOrder, hot] at h
    cases hp : o.stop_price with
    | none =>
      simp only [hp] at h
      injection h with h2
      obtain ⟨h3, h4⟩ := Prod.mk.injEq .. ▸ h2
      obtain ⟨h5, h6⟩ := Prod.mk.injEq .. ▸ h4
      exact Or.inl ⟨h5.symm, h6.symm, h3.symm⟩
    | some p =>
      simp only [hp] at h
      split_ifs at h
      all_goals exact Or.inr ⟨_, h⟩

theorem executeOrder_err_fields {e eR : Engine} {t : ℕ} {o oR : PaperOrder} {msg : String}
    (h : executeOrder e t o = Except.error (msg, oR, eR)) :
    eR.initial_balance = e.initial_balance ∧
    eR.commission_rate = e.commission_rate ∧
    eR.account.orders = e.account.orders ∧
    e.account.max_drawdown ≤ eR.account.max_drawdown ∧
    (0 < o.quantity → posInvariant e → posInvariant eR) ∧
    (cashOk e → cashOk eR) := by
  rcases executeOrder_err_spec h with ⟨_, heR, _⟩ | ⟨fp, hfill⟩
  · subst heR
    exact ⟨rfl, rfl, rfl, le_rfl, fun _ hi => hi, fun hc => hc⟩
  · obtain ⟨_, hib, hcr, hord, hdd, hpi, hck⟩ := fillOrder_err_fields hfill
    exact ⟨hib, hcr, hord, hdd, fun hq hi => hpi hq hi, fun hc => hck hc⟩

theorem executeOrder_err_account {e eR : Engine} {t : ℕ} {o oR : PaperOrder} {msg : String}
    (hib : e.initial_balance ≠ 0)
    (h : executeOrder e t o = Except.error (msg, oR, eR)) : eR.account = e.account := by
  rcases executeOrder_err_spec h with ⟨_, heR, _⟩ | ⟨fp, hfill⟩
  · subst heR
    rfl
  · obtain ⟨_, hcase⟩ := fillOrder_err_spec hfill
    rcases hcase with heq | ⟨e1, hu, hu2⟩
    · subst heq
      rfl
    · exfalso
      apply hib
      have hz := (updateAccountEquity_err_spec hu2).2.2.1
      have h1 : e1.initial_balance = (getCurrentPrice e o.symbol).2.initial_balance :=
        (updatePosition_frame hu).1
      show e.initial_balance = 0
      calc e.initial_balance = e1.initial_balance := h1.symm
      _ = 0 := hz

theorem executeOrder_ok_cases {e e' : Engine} {t : ℕ} {o o' : PaperOrder}
    (h : executeOrder e t o = Except.ok (o', e')) :
    (o' = { o with status := OrderStatus.pending } ∧ e' = (getCurrentPrice e o.symbol).2) ∨
    (∃ fp, fillOrder (getCurrentPrice e o.symbol).2 t o fp = Except.ok (o', e')) := by
  cases hot : o.order_type with
  | market =>
    simp only [executeOrder, hot] at h
    exact Or.inr ⟨_, h⟩
  | limit =>
    simp only [executeOrder, hot] at h
    cases hp : o.price with
    | none =>
      simp only [hp] at h
      exact Except.noConfusion h
    | some p =>
      simp only [hp] at h
      split_ifs at h
      all_goals first
      | exact Or.inr ⟨_, h⟩
      | (injection h with h2
         obtain ⟨h3, h4⟩ := Prod.mk.injEq .. ▸ h2
         exact Or.inl ⟨h3.symm, h4.symm⟩)
  | stop =>
    simp only [executeOrder, hot] at h
    cases hp : o.stop_price with
    | none =>
      simp only [hp] at h
      exact Except.noConfusion h
    | some p =>
      simp only [hp] at h
      split_ifs at h
      all_goals first
      | exact Or.inr ⟨_, h⟩
      | (injection h with h2
         obtain ⟨h3, h4⟩ := Prod.mk.injEq .. ▸ h2
         exact Or.inl ⟨h3.symm, h4.symm⟩)

theorem executeOrder_err_pending {e eR : Engine} {t : ℕ} {o oR : PaperOrder} {msg : String}
    (hq : 0 < o.quantity) (hinv : posInvariant e) (hib : e.initial_balance ≠ 0)
    (h : executeOrder e t o = Except.error (msg, oR, eR)) : oR = o := by
  have hinv2 : posInvariant (getCurrentPrice e o.symbol).2 := hinv
  have hib2 : (getCurrentPrice e o.symbol).2.initial_balance ≠ 0 := hib
  cases hot : o.order_type with
  | market =>
    simp only [executeOrder, hot] at h
    exact absurd h (fillOrder_no_err t _ hq hinv2 hib2)
  | limit =>
    simp only [executeOrder, hot] at h
    cases hp : o.price with
    | none =>
      simp only [hp] at h
      injection h with h2
      obtain ⟨h3, h4⟩ := Prod.mk.injEq .. ▸ h2
      obtain ⟨h5, h6⟩ := Prod.mk.injEq .. ▸ h4
      exact h5.symm
    | some p =>
      simp only [hp] at h
      split_ifs at h
      all_goals exact absurd h (fillOrder_no_err t _ hq hinv2 hib2)
  | stop =>
    simp only [executeOrder, hot] at h
    cases hp : o.stop_price with
    | none =>
      simp only [hp] at h
      injection h with h2
      obtain ⟨h3, h4⟩ := Prod.mk.injEq .. ▸ h2
      obtain ⟨h5, h6⟩ := Prod.mk.injEq .. ▸ h4
      exact h5.symm
    | some p =>
      simp only [hp] at h
      split_ifs at h
      all_goals exact absurd h (fillOrder_no_err t _ hq hinv2 hib2)

/-! ## Lemmas: order placement -/

theorem placePrep_account (e : Engine) (s : String) : (placePrep e s).2.account = e.account := rfl

theorem placeOrder_ok_eq {e : Engine} {t : ℕ} {symbol : String} {side : OrderSide}
    {otype : OrderType} {q : ℚ} {p sp : Option ℚ} {o2 : PaperOrder} {e2 : Engine}
    (h : executeOrder (placePrep e symbol).2 t (initOrder e t symbol side otype q p sp) =
      Except.ok (o2, e2)) :
    placeOrder e t symbol side otype q p sp =
      (o2, { e2 with account := { e2.account with orders := e2.account.orders ++ [o2] } }) := by
  simp [placeOrder, h]

theorem placeOrder_err_eq {e : Engine} {t : ℕ} {symbol : String} {side : OrderSide}
    {otype : OrderType} {q : ℚ} {p sp : Option ℚ} {msg : String} {oR : PaperOrder} {eR : Engine}
    (h : executeOrder (placePrep e symbol).2 t (initOrder e t symbol side otype q p sp) =
      Except.error (msg, oR, eR)) :
    placeOrder e t symbol side otype q p sp =
      ({ oR with status := OrderStatus.rejected, notes := msg }, eR) := by
  simp [placeOrder, h]

/-! ## Lemmas: cancellation -/

theorem cancelOrders_evolves :
    ∀ {l : List PaperOrder} {oid : String} {l' : List PaperOrder},
    cancelOrders l oid = some l' → List.Forall₂ orderEvolves l l' := by
  intro l oid
  induction l with
  | nil => intro l' h; simp [cancelOrders] at h
  | cons o rest ih =>
    intro l' h
    by_cases hc : o.id = oid ∧ o.status = OrderStatus.pending
    · simp only [cancelOrders, if_pos hc] at h
      obtain rfl := Option.some_inj.mp h
      exact List.Forall₂.cons (Or.inr ⟨hc.2, rfl⟩)
        (List.forall₂_same.mpr fun x _ => Or.inl rfl)
    · simp only [cancelOrders, if_neg hc] at h
      cases hr : cancelOrders rest oid with
      | none => rw [hr] at h; exact Option.noConfusion h
      | some rest' =>
        rw [hr] at h
        obtain rfl := Option.some_inj.mp h
        exact List.Forall₂.cons (Or.inl rfl) (ih hr)

/-! ## Lemmas: cash accounting -/

theorem netCash_eq_proceeds_sub_costs (l : List Trade) :
    netCash l = sellProceeds l - buyCosts l := by
  induction l with
  | nil => simp [netCash, sellProceeds, buyCosts]
  | cons a rest ih =>
    cases hs : a.side with
    | buy =>
      have hs2 : ¬ a.side = OrderSide.sell := by simp [hs]
      simp only [netCash, tradeDelta, if_neg hs2, ih, sellProceeds, buyCosts, List.filter]
      simp [hs]
      ring
    | sell =>
      have hs2 : ¬ a.side = OrderSide.buy := by simp [hs]
      simp only [netCash, tradeDelta, if_pos hs, ih, sellProceeds, buyCosts, List.filter]
      simp [hs, hs2]
      ring

theorem notional_of_zero_commission {l : List Trade} (h : ∀ t ∈ l, t.commission = 0) :
    buyCosts l = buyNotional l ∧ sellProceeds l = sellNotional l := by
  induction l with
  | nil => simp [buyCosts, buyNotional, sellProceeds, sellNotional]
  | cons a rest ih =>
    have ha : a.commission = 0 := h a (List.mem_cons_self _ _)
    have hrest := ih fun t ht => h t (List.mem_cons_of_mem _ ht)
    cases hs : a.side with
    | buy =>
      simp only [buyCosts, buyNotional, sellProceeds, sellNotional, List.filter] at hrest ⊢
      simp [hs, ha, hrest.1, hrest.2]
    | sell =>
      simp only [buyCosts, buyNotional, sellProceeds, sellNotional, List.filter] at hrest ⊢
      simp [hs, ha, hrest.1, hrest.2]

theorem placeOrder_config (e : Engine) (t : ℕ) (s : String) (side : OrderSide) (ot : OrderType)
    (q : ℚ) (p sp : Option ℚ) :
    (placeOrder e t s side ot q p sp).2.initial_balance = e.initial_balance ∧
    (placeOrder e t s side ot q p sp).2.commission_rate = e.commission_rate := by
  cases hex : executeOrder (placePrep e s).2 t (initOrder e t s side ot q p sp) with
  | ok pr =>
    obtain ⟨o2, e2⟩ := pr
    rw [placeOrder_ok_eq hex]
    rcases executeOrder_ok_cases hex with ⟨_, he2⟩ | ⟨fp, hfill⟩
    · subst he2
      exact ⟨rfl, rfl⟩
    · obtain ⟨tr, _, _, _, hib, hcr⟩ := fillOrder_cash hfill
      exact ⟨hib, hcr⟩
  | error tr =>
    obtain ⟨msg, oR, eR⟩ := tr
    rw [placeOrder_err_eq hex]
    obtain ⟨hib, hcr, _⟩ := executeOrder_err_fields hex
    exact ⟨hib, hcr⟩

theorem placeOrder_dd (e : Engine) (t : ℕ) (s : String) (side : OrderSide) (ot : OrderType)
    (q : ℚ) (p sp : Option ℚ) :
    e.account.max_drawdown ≤ (placeOrder e t s side ot q p sp).2.account.max_drawdown := by
  cases hex : executeOrder (placePrep e s).2 t (initOrder e t s side ot q p sp) with
  | ok pr =>
    obtain ⟨o2, e2⟩ := pr
    rw [placeOrder_ok_eq hex]
    rcases executeOrder_ok_cases hex with ⟨_, he2⟩ | ⟨fp, hfill⟩
    · subst he2
      exact le_rfl
    · show (getCurrentPrice (placePrep e s).2
          (initOrder e t s side ot q p sp).symbol).2.account.max_drawdown ≤
          e2.account.max_drawdown
      exact fillOrder_dd hfill
  | error tr =>
    obtain ⟨msg, oR, eR⟩ := tr
    rw [placeOrder_err_eq hex]
    exact (executeOrder_err_fields hex).2.2.2.1

theorem placeOrder_posInv {e : Engine} (t : ℕ) (s : String) (side : OrderSide) (ot : OrderType)
    {q : ℚ} (p sp : Option ℚ) (hq : 0 < q) (hinv : posInvariant e) :
    posInvariant (placeOrder e t s side ot q p sp).2 := by
  cases hex : executeOrder (placePrep e s).2 t (initOrder e t s side ot q p sp) with
  | ok pr =>
    obtain ⟨o2, e2⟩ := pr
    rw [placeOrder_ok_eq hex]
    rcases executeOrder_ok_cases hex with ⟨_, he2⟩ | ⟨fp, hfill⟩
    · subst he2
      exact fun x hx => hinv x hx
    · have hinv2 : posInvariant (getCurrentPrice (placePrep e s).2
          (initOrder e t s side ot q p sp).symbol).2 := hinv
      exact fun x hx => fillOrder_posInv hq hinv2 hfill x hx
  | error tr =>
    obtain ⟨msg, oR, eR⟩ := tr
    rw [placeOrder_err_eq hex]
    exact (executeOrder_err_fields hex).2.2.2.2.1 hq (fun x hx => hinv x hx)

theorem placeOrder_cash {e : Engine} (t : ℕ) (s : String) (side : OrderSide) (ot : OrderType)
    (q : ℚ) (p sp : Option ℚ) (hcash : cashOk e) :
    cashOk (placeOrder e t s side ot q p sp).2 := by
  cases hex : executeOrder (placePrep e s).2 t (initOrder e t s side ot q p sp) with
  | ok pr =>
    obtain ⟨o2, e2⟩ := pr
    rw [placeOrder_ok_eq hex]
    rcases executeOrder_ok_cases hex with ⟨_, he2⟩ | ⟨fp, hfill⟩
    · subst he2
      exact hcash
    · obtain ⟨tr, hcomm, hth, hbal, hib, hcr⟩ := fillOrder_cash hfill
      constructor
      · show e2.account.balance = e2.initial_balance + netCash e2.account.trade_history
        rw [hbal, hth, hib, netCash_append]
        have hb0 : (getCurrentPrice (placePrep e s).2
            (initOrder e t s side ot q p sp).symbol).2.account.balance =
            e.account.balance := rfl
        have hi0 : (getCurrentPrice (placePrep e s).2
            (initOrder e t s side ot q p sp).symbol).2.initial_balance =
            e.initial_balance := rfl
        have hh0 : (getCurrentPrice (placePrep e s).2
            (initOrder e t s side ot q p sp).symbol).2.account.trade_history =
            e.account.trade_history := rfl
        rw [hb0, hi0, hh0, hcash.1]
        ring
      · show ∀ x ∈ e2.account.trade_history,
          x.commission = x.quantity * x.price * e2.commission_rate
        intro x hx
        rw [hth] at hx
        rw [List.mem_append] at hx
        rcases hx with hx | hx
        · rw [hcr]
          exact hcash.2 x hx
        · rw [List.mem_singleton] at hx
          subst hx
          rw [hcr]
          exact hcomm
  | error tr =>
    obtain ⟨msg, oR, eR⟩ := tr
    rw [placeOrder_err_eq hex]
    exact (executeOrder_err_fields hex).2.2.2.2.2 hcash

theorem placeOrder_orders (e : Engine) (t : ℕ) (s : String) (side : OrderSide) (ot : OrderType)
    (q : ℚ) (p sp : Option ℚ) :
    ∃ tail, (placeOrder e t s side ot q p sp).2.account.orders = e.account.orders ++ tail ∧
      ∀ x ∈ tail, x.status = OrderStatus.filled ∨ x.status = OrderStatus.pending := by
  cases hex : executeOrder (placePrep e s).2 t (initOrder e t s side ot q p sp) with
  | ok pr =>
    obtain ⟨o2, e2⟩ := pr
    rw [placeOrder_ok_eq hex]
    refine ⟨[o2], ?_, ?_⟩
    · show e2.account.orders ++ [o2] = e.account.orders ++ [o2]
      rcases executeOrder_ok_cases hex with ⟨_, he2⟩ | ⟨fp, hfill⟩
      · subst he2
        rfl
      · rw [fillOrder_orders hfill]
        rfl
    · intro x hx
      rw [List.mem_singleton] at hx
      subst hx
      rcases executeOrder_ok_cases hex with ⟨ho2, _⟩ | ⟨fp, hfill⟩
      · subst ho2
        exact Or.inr rfl
      · exact Or.inl (fillOrder_ok_status hfill)
  | error tr =>
    obtain ⟨msg, oR, eR⟩ := tr
    rw [placeOrder_err_eq hex]
    exact ⟨[], by rw [List.append_nil]; exact (executeOrder_err_fields hex).2.2.1, by simp⟩

/-! ## Lemmas: cancel, summary, step, run -/

theorem cancelOrder_frame (e : Engine) (oid : String) :
    (cancelOrder e oid).2.account.positions = e.account.positions ∧
    (cancelOrder e oid).2.account.balance = e.account.balance ∧
    (cancelOrder e oid).2.account.trade_history = e.account.trade_history ∧
    (cancelOrder e oid).2.account.max_drawdown = e.account.max_drawdown ∧
    (cancelOrder e oid).2.initial_balance = e.initial_balance ∧
    (cancelOrder e oid).2.commission_rate = e.commission_rate := by
  cases hc : cancelOrders e.account.orders oid with
  | none => simp [cancelOrder, hc]
  | some l => simp [cancelOrder, hc]

theorem cancelOrder_orders (e : Engine) (oid : String) :
    List.Forall₂ orderEvolves e.account.orders (cancelOrder e oid).2.account.orders := by
  cases hc : cancelOrders e.account.orders oid with
  | none =>
    simp only [cancelOrder, hc]
    exact List.forall₂_same.mpr fun x _ => Or.inl rfl
  | some l =>
    simp only [cancelOrder, hc]
    exact cancelOrders_evolves hc

theorem engineAfterSummary_ok {e e1 : Engine} {t : ℕ}
    (hu : updateAccountEquity e t = Except.ok e1) : engineAfterSummary e t = e1 := by
  by_cases hz : e1.initial_balance = 0
  · simp [engineAfterSummary, getAccountSummary, hu, hz]
  · simp [engineAfterSummary, getAccountSummary, hu, hz]

theorem engineAfterSummary_err {e : Engine} {t : ℕ} {pr : String × Engine}
    (hu : updateAccountEquity e t = Except.error pr) : engineAfterSummary e t = pr.2 := by
  simp [engineAfterSummary, getAccountSummary, hu]

theorem engineAfterSummary_cases (e : Engine) (t : ℕ) :
    updateAccountEquity e t = Except.ok (engineAfterSummary e t) ∨
      engineAfterSummary e t = markedEngine e := by
  cases hu : updateAccountEquity e t with
  | error pr =>
    right
    rw [engineAfterSummary_err hu]
    obtain ⟨m, eE⟩ := pr
    exact (updateAccountEquity_err_spec hu).2.1
  | ok e1 =>
    left
    rw [engineAfterSummary_ok hu]

theorem step_config (e : Engine) (c : Cmd) :
    (step e c).initial_balance = e.initial_balance ∧
    (step e c).commission_rate = e.commission_rate := by
  cases c with
  | place t s side ot q p sp => exact placeOrder_config e t s side ot q p sp
  | cancel oid =>
    exact ⟨(cancelOrder_frame e oid).2.2.2.2.1, (cancelOrder_frame e oid).2.2.2.2.2⟩
  | summary t =>
    rcases engineAfterSummary_cases e t with hok | hmk
    · exact ⟨(updateAccountEquity_ok_frame hok).1, (updateAccountEquity_ok_frame hok).2.1⟩
    · constructor
      · show (engineAfterSummary e t).initial_balance = e.initial_balance
        rw [hmk]
        rfl
      · show (engineAfterSummary e t).commission_rate = e.commission_rate
        rw [hmk]
        rfl
  | history n => exact ⟨rfl, rfl⟩

theorem step_dd (e : Engine) (c : Cmd) :
    e.account.max_drawdown ≤ (step e c).account.max_drawdown := by
  cases c with
  | place t s side ot q p sp => exact placeOrder_dd e t s side ot q p sp
  | cancel oid => exact le_of_eq (cancelOrder_frame e oid).2.2.2.1.symm
  | summary t =>
    rcases engineAfterSummary_cases e t with hok | hmk
    · exact updateAccountEquity_ok_dd_mono hok
    · have hdd : (engineAfterSummary e t).account.max_drawdown = e.account.max_drawdown := by
        rw [hmk]
        rfl
      exact le_of_eq hdd.symm
  | history n => exact le_rfl

theorem step_posInv {e : Engine} {c : Cmd} (hc : cmdQtyPos c) (hinv : posInvariant e) :
    posInvariant (step e c) := by
  cases c with
  | place t s side ot q p sp => exact placeOrder_posInv t s side ot p sp hc hinv
  | cancel oid => exact fun x hx => hinv x ((cancelOrder_frame e oid).1 ▸ hx)
  | summary t =>
    rcases engineAfterSummary_cases e t with hok | hmk
    · exact updateAccountEquity_ok_posInv hok hinv
    · intro x hx
      have hx2 : x ∈ (markedEngine e).account.positions := by
        rw [← hmk]
        exact hx
      exact markedEngine_posInv hinv x hx2
  | history n => exact hinv

theorem step_cash {e : Engine} (c : Cmd) (h : cashOk e) : cashOk (step e c) := by
  cases c with
  | place t s side ot q p sp => exact placeOrder_cash t s side ot q p sp h
  | cancel oid =>
    obtain ⟨hpos, hbal, hth, hdd, hib, hcr⟩ := cancelOrder_frame e oid
    refine ⟨?_, ?_⟩
    · show (cancelOrder e oid).2.account.balance =
        (cancelOrder e oid).2.initial_balance +
          netCash (cancelOrder e oid).2.account.trade_history
      rw [hbal, hib, hth]
      exact h.1
    · intro x hx
      show x.commission = x.quantity * x.price * (cancelOrder e oid).2.commission_rate
      rw [hcr]
      exact h.2 x (by rw [← hth]; exact hx)
  | summary t =>
    show cashOk (engineAfterSummary e t)
    rcases engineAfterSummary_cases e t with hok | hmk
    · obtain ⟨hib, hcr, _, _, _, hbal, _, hth, _⟩ := updateAccountEquity_ok_frame hok
      exact cashOk_transport hbal hib hth hcr h
    · rw [hmk]
      exact cashOk_transport rfl rfl rfl rfl h
  | history n => exact h

theorem step_orders (e : Engine) (c : Cmd) :
    ∃ l tail, (step e c).account.orders = l ++ tail ∧
      List.Forall₂ orderEvolves e.account.orders l ∧
      ∀ x ∈ tail, x.status = OrderStatus.filled ∨ x.status = OrderStatus.pending := by
  cases c with
  | place t s side ot q p sp =>
    obtain ⟨tail, heq, hst⟩ := placeOrder_orders e t s side ot q p sp
    exact ⟨e.account.orders, tail, heq,
      List.forall₂_same.mpr fun x _ => Or.inl rfl, hst⟩
  | cancel oid =>
    refine ⟨(cancelOrder e oid).2.account.orders, [], by rw [List.append_nil]; rfl,
      cancelOrder_orders e oid, by simp⟩
  | summary t =>
    refine ⟨e.account.orders, [], ?_, List.forall₂_same.mpr fun x _ => Or.inl rfl, by simp⟩
    rw [List.append_nil]
    show (engineAfterSummary e t).account.orders = e.account.orders
    rcases engineAfterSummary_cases e t with hok | hmk
    · exact (updateAccountEquity_ok_frame hok).2.2.2.2.2.2.1
    · rw [hmk]
      rfl
  | history n =>
    refine ⟨e.account.orders, [], by rw [List.append_nil]; rfl,
      List.forall₂_same.mpr fun x _ => Or.inl rfl, by simp⟩

theorem run_config (cs : List Cmd) : ∀ (e : Engine),
    (run e cs).initial_balance = e.initial_balance ∧
    (run e cs).commission_rate = e.commission_rate := by
  induction cs with
  | nil => exact fun e => ⟨rfl, rfl⟩
  | cons c rest ih =>
    intro e
    exact ⟨(ih (step e c)).1.trans (step_config e c).1,
      (ih (step e c)).2.trans (step_config e c).2⟩

theorem run_dd (cs : List Cmd) : ∀ (e : Engine),
    e.account.max_drawdown ≤ (run e cs).account.max_drawdown := by
  induction cs with
  | nil => exact fun e => le_rfl
  | cons c rest ih =>
    intro e
    exact le_trans (step_dd e c) (ih (step e c))

theorem run_posInv {cs : List Cmd} (hc : ∀ c ∈ cs, cmdQtyPos c) :
    ∀ {e : Engine}, posInvariant e → posInvariant (run e cs) := by
  induction cs with
  | nil => exact fun h => h
  | cons c rest ih =>
    intro e h
    exact ih (fun x hx => hc x (List.mem_cons_of_mem _ hx))
      (step_posInv (hc c (List.mem_cons_self _ _)) h)

theorem run_cash (cs : List Cmd) : ∀ {e : Engine}, cashOk e → cashOk (run e cs) := by
  induction cs with
  | nil => exact fun h => h
  | cons c rest ih =>
    intro e h
    exact ih (step_cash c h)

theorem mkEngine_posInv (init rate : ℚ) (v : String → ℚ) (t : ℕ) :
    posInvariant (mkEngine init rate v t) := by
  intro x hx
  simp [mkEngine, createInitialAccount] at hx

theorem mkEngine_cash (init rate : ℚ) (v : String → ℚ) (t : ℕ) :
    cashOk (mkEngine init rate v t) := by
  refine ⟨?_, ?_⟩
  · show init = init + netCash []
    simp [netCash]
  · intro x hx
    simp [mkEngine, createInitialAccount] at hx

/-! ## Lemmas: idempotence of the equity recomputation -/

theorem markedEngine_ok_marked {e e1 : Engine} {t1 : ℕ}
    (h : updateAccountEquity e t1 = Except.ok e1) :
    (markedEngine e1).account.positions = e1.account.positions ∧
    (markedEngine e1).account.equity = e1.account.equity ∧
    (markedEngine e1).price_cache = e1.price_cache := by
  obtain ⟨hpos, heq, hpc, _⟩ := updateAccountEquity_ok_spec h
  have hvar : e1.variation = e.variation := (updateAccountEquity_ok_frame h).2.2.1
  have hbal : e1.account.balance = e.account.balance :=
    (updateAccountEquity_ok_frame h).2.2.2.2.2.1
  have key : markPositions e1.variation e1.price_cache e1.account.positions =
      markPositions e.variation e.price_cache e.account.positions := by
    rw [hvar]
    rw [show e1.price_cache =
      (markPositions e.variation e.price_cache e.account.positions).2.2 from hpc]
    rw [show e1.account.positions =
      (markPositions e.variation e.price_cache e.account.positions).1 from hpos]
    exact markPositions_stable e.account.positions
  refine ⟨?_, ?_, ?_⟩
  · show (markPositions e1.variation e1.price_cache e1.account.positions).1 =
      e1.account.positions
    rw [key]
    exact hpos.symm
  · show e1.account.balance +
      (markPositions e1.variation e1.price_cache e1.account.positions).2.1 =
      e1.account.equity
    rw [key, hbal, heq]
    rfl
  · show (markPositions e1.variation e1.price_cache e1.account.positions).2.2 =
      e1.price_cache
    rw [key]
    exact hpc.symm

theorem updateAccountEquity_idem {e e1 : Engine} {t1 : ℕ} (t2 : ℕ)
    (h : updateAccountEquity e t1 = Except.ok e1) :
    ∃ e2, updateAccountEquity e1 t2 = Except.ok e2 ∧
      e2.account.equity = e1.account.equity ∧
      e2.account.positions = e1.account.positions ∧
      e2.account.max_drawdown = e1.account.max_drawdown ∧
      e2.account.updated_at = t2 := by
  have hm := markedEngine_ok_marked h
  have hib : e1.initial_balance = e.initial_balance := (updateAccountEquity_ok_frame h).1
  by_cases hlt : (markedEngine e).account.equity < e.initial_balance
  · by_cases hz : e.initial_balance = 0
    · rw [updateAccountEquity_raise_eq t1 hlt hz] at h
      exact Except.noConfusion h
    · rw [updateAccountEquity_ok_lt_eq t1 hlt hz] at h
      injection h with h1
      have hlt2 : (markedEngine e1).account.equity < e1.initial_balance := by
        rw [hm.2.1, hib]
        rw [← h1]
        exact hlt
      have hz2 : ¬ e1.initial_balance = 0 := by
        rw [hib]
        exact hz
      refine ⟨_, updateAccountEquity_ok_lt_eq t2 hlt2 hz2, hm.2.1, hm.1, ?_, rfl⟩
      show max (markedEngine e1).account.max_drawdown
          ((e1.initial_balance - (markedEngine e1).account.equity) / e1.initial_balance) =
        e1.account.max_drawdown
      have hdd1 : (markedEngine e1).account.max_drawdown = e1.account.max_drawdown := rfl
      rw [hdd1, hm.2.1, hib]
      have he1eq : e1.account.equity = (markedEngine e).account.equity := by
        rw [← h1]
      have he1dd : e1.account.max_drawdown = max (markedEngine e).account.max_drawdown
          ((e.initial_balance - (markedEngine e).account.equity) / e.initial_balance) := by
        rw [← h1]
      rw [he1eq, he1dd, max_assoc, max_self]
  · rw [updateAccountEquity_ok_ge_eq t1 hlt] at h
    injection h with h1
    have hge2 : ¬ (markedEngine e1).account.equity < e1.initial_balance := by
      rw [hm.2.1, hib]
      intro hc
      apply hlt
      have he1eq : e1.account.equity = (markedEngine e).account.equity := by
        rw [← h1]
      rw [he1eq] at hc
      exact hc
    refine ⟨_, updateAccountEquity_ok_ge_eq t2 hge2, hm.2.1, hm.1, ?_, rfl⟩
    show (markedEngine e1).account.max_drawdown = e1.account.max_drawdown
    rfl

/-! ## Helper evaluation lemmas for concrete symbols -/

theorem basePrice_A : basePrice "A" = 100 := by simp [basePrice]

theorem basePrice_BTC : basePrice "BTCUSDT" = 50000 := by simp [basePrice]

theorem buy_eq_sell_false : (OrderSide.buy = OrderSide.sell) = False := by simp

theorem sell_eq_buy_false : (OrderSide.sell = OrderSide.buy) = False := by simp

/-! ## Claim theorems -/

/-- C1 counterexample: on an engine constructed with `initial_balance = 0`,
a MARKET BUY of quantity 1 is filled — balance debited by the notional,
trade record appended, `total_trades` incremented — and only then does
`_update_account_equity` raise `ZeroDivisionError` in the drawdown
division; the handler merely marks the order REJECTED, so the call
returns a REJECTED order carrying the zero-division text while the
account keeps every mutation of the fill, refuting "the Account is
exactly what it was before the call". -/
theorem C1_counterexample :
    (placeOrder engZ 0 "A" OrderSide.buy OrderType.market 1 none none).1.status =
      OrderStatus.rejected ∧
    (placeOrder engZ 0 "A" OrderSide.buy OrderType.market 1 none none).1.notes =
      zeroDivMsg ∧
    (placeOrder engZ 0 "A" OrderSide.buy OrderType.market 1 none none).2.account.total_trades
      = 1 ∧
    (placeOrder engZ 0 "A" OrderSide.buy OrderType.market 1 none none).2.account.balance
      = -100 ∧
    (placeOrder engZ 0 "A" OrderSide.buy OrderType.market 1 none none).2.account ≠
      engZ.account := by
  have h3 : (placeOrder engZ 0 "A" OrderSide.buy
      OrderType.market 1 none none).2.account.total_trades = 1 := by
    norm_num [engZ, run, step, placeOrder, placePrep, initOrder, getCurrentPrice,
      getCurrentPriceC, lookupQ, basePrice_A, executeOrder, fillOrder, updatePosition,
      updateAccountEquity, markedEngine, markPositions, calcCommission, calcRealizedPnl,
      lookupPos, newPosition, mkEngine, createInitialAccount, zeroVariation, pyOr, applyFill,
      fillTrade, fillMark, setPos, delPos, buy_eq_sell_false, sell_eq_buy_false]
  refine ⟨?_, ?_, h3, ?_, fun heq => ?_⟩
  · norm_num [engZ, run, step, placeOrder, placePrep, initOrder, getCurrentPrice,
      getCurrentPriceC, lookupQ, basePrice_A, executeOrder, fillOrder, updatePosition,
      updateAccountEquity, markedEngine, markPositions, calcCommission, calcRealizedPnl,
      lookupPos, newPosition, mkEngine, createInitialAccount, zeroVariation, pyOr, applyFill,
      fillTrade, fillMark, setPos, delPos, buy_eq_sell_false, sell_eq_buy_false]
  · norm_num [engZ, run, step, placeOrder, placePrep, initOrder, getCurrentPrice,
      getCurrentPriceC, lookupQ, basePrice_A, executeOrder, fillOrder, updatePosition,
      updateAccountEquity, markedEngine, markPositions, calcCommission, calcRealizedPnl,
      lookupPos, newPosition, mkEngine, createInitialAccount, zeroVariation, pyOr, applyFill,
      fillTrade, fillMark, setPos, delPos, buy_eq_sell_false, sell_eq_buy_false]
  · norm_num [engZ, run, step, placeOrder, placePrep, initOrder, getCurrentPrice,
      getCurrentPriceC, lookupQ, basePrice_A, executeOrder, fillOrder, updatePosition,
      updateAccountEquity, markedEngine, markPositions, calcCommission, calcRealizedPnl,
      lookupPos, newPosition, mkEngine, createInitialAccount, zeroVariation, pyOr, applyFill,
      fillTrade, fillMark, setPos, delPos, buy_eq_sell_false, sell_eq_buy_false]
  · have h0 : engZ.account.total_trades = 0 := rfl
    have hc := (congrArg PaperAccount.total_trades heq).symm.trans h3
    rw [h0] at hc
    exact absurd hc (by norm_num)

/-- C1 amended: whenever fill resolution raises an exception,
`place_order` returns the order carried by the exception with status
REJECTED and the exception text in its note field; provided the engine
was constructed with a nonzero initial balance, the raise-site account
equals the pre-call account, so no partial mutation survives.  (On a
zero-initial-balance engine the drawdown division of
`_update_account_equity` can raise after `_fill_order` has already
mutated the account, and those mutations survive the handler.) -/
theorem C1_amended_reject_handler (e : Engine) (t : ℕ) (symbol : String) (side : OrderSide)
    (otype : OrderType) (q : ℚ) (p sp : Option ℚ) (msg : String) (oR : PaperOrder) (eR : Engine)
    (h : executeOrder (placePrep e symbol).2 t (initOrder e t symbol side otype q p sp) =
      Except.error (msg, oR, eR)) :
    placeOrder e t symbol side otype q p sp =
      ({ oR with status := OrderStatus.rejected, notes := msg }, eR) ∧
    (e.initial_balance ≠ 0 → eR.account = e.account) := by
  refine ⟨placeOrder_err_eq h, fun hib => ?_⟩
  have hib2 : (placePrep e symbol).2.initial_balance ≠ 0 := hib
  exact (executeOrder_err_account hib2 h).trans (placePrep_account e symbol)

/-- Witness for C1 amended: a STOP BUY with no stop price on a fresh
default engine (initial balance 10000 ≠ 0) raises the `None`-comparison
`TypeError`; the returned order is REJECTED with that text in `notes`
and the account is unchanged. -/
theorem C1_amended_reject_handler_witness :
    executeOrder (placePrep engA "BTCUSDT").2 0
        (initOrder engA 0 "BTCUSDT" OrderSide.buy OrderType.stop 1 none none) =
      Except.error (noneCmpMsg,
        initOrder engA 0 "BTCUSDT" OrderSide.buy OrderType.stop 1 none none,
        (getCurrentPrice (placePrep engA "BTCUSDT").2 "BTCUSDT").2) ∧
    engA.initial_balance ≠ 0 ∧
    (placeOrder engA 0 "BTCUSDT" OrderSide.buy OrderType.stop 1 none none =
        ({ initOrder engA 0 "BTCUSDT" OrderSide.buy OrderType.stop 1 none none with
             status := OrderStatus.rejected
             notes := noneCmpMsg },
         (getCurrentPrice (placePrep engA "BTCUSDT").2 "BTCUSDT").2) ∧
      (getCurrentPrice (placePrep engA "BTCUSDT").2 "BTCUSDT").2.account = engA.account) := by
  have h : executeOrder (placePrep engA "BTCUSDT").2 0
      (initOrder engA 0 "BTCUSDT" OrderSide.buy OrderType.stop 1 none none) =
      Except.error (noneCmpMsg,
        initOrder engA 0 "BTCUSDT" OrderSide.buy OrderType.stop 1 none none,
        (getCurrentPrice (placePrep engA "BTCUSDT").2 "BTCUSDT").2) := rfl
  have hib : engA.initial_balance ≠ 0 := by norm_num [engA, mkEngine]
  obtain ⟨h1, h2⟩ := C1_amended_reject_handler engA 0 "BTCUSDT" OrderSide.buy OrderType.stop 1
    none none _ _ _ h
  exact ⟨h, hib, h1, h2 hib⟩

/-- C2 counterexample: a MARKET BUY of quantity 0 is not rejected — it is
FILLED, a trade-history record is appended and `total_trades` becomes 1,
refuting "quantity ≤ 0 is rejected before any state mutation". -/
theorem C2_counterexample :
    (placeOrder engA 0 "BTCUSDT" OrderSide.buy OrderType.market 0 none none).1.status =
      OrderStatus.filled ∧
    (placeOrder engA 0 "BTCUSDT" OrderSide.buy OrderType.market 0 none none).2.account.total_trades
      = 1 ∧
    (placeOrder engA 0 "BTCUSDT" OrderSide.buy OrderType.market 0 none none).2.account.trade_history
      ≠ [] := by
  norm_num [engA, run, step, placeOrder, placePrep, initOrder, getCurrentPrice,
      getCurrentPriceC, lookupQ, basePrice_BTC, executeOrder, fillOrder, updatePosition,
      updateAccountEquity, markedEngine, markPositions, calcCommission, calcRealizedPnl,
      lookupPos, newPosition, mkEngine, createInitialAccount, zeroVariation, pyOr, applyFill,
      fillTrade, fillMark, setPos, delPos, buy_eq_sell_false, sell_eq_buy_false]

/-- C2 amended: the only invalid-input class that is rejected before any
state mutation is a STOP order with no stop price (via the
`None`-comparison `TypeError`): the returned order is REJECTED and the
Account is exactly unchanged.  Quantity ≤ 0 orders and LIMIT orders
without a price are not validated at all. -/
theorem C2_amended_stop_none_rejected (e : Engine) (t : ℕ) (symbol : String) (side : OrderSide)
    (q : ℚ) (p : Option ℚ) :
    (placeOrder e t symbol side OrderType.stop q p none).1.status = OrderStatus.rejected ∧
    (placeOrder e t symbol side OrderType.stop q p none).2.account = e.account := by
  have h : executeOrder (placePrep e symbol).2 t
      (initOrder e t symbol side OrderType.stop q p none) =
      Except.error (noneCmpMsg, initOrder e t symbol side OrderType.stop q p none,
        (getCurrentPrice (placePrep e symbol).2 symbol).2) := rfl
  rw [placeOrder_err_eq h]
  exact ⟨rfl, rfl⟩

/-- C3: a fill against an opposite-side position with order quantity ≥
position quantity realizes `(fill − entry) × position_qty` for a long
position (negated for a short) onto `total_pnl`, deletes the old
position, and — exactly when the order quantity strictly exceeds the
position quantity — creates a fresh position in the order's side for the
remainder at entry price = fill price, within the same fill event. -/
theorem C3_netting_full_close (e : Engine) (t : ℕ) (o : PaperOrder) (fp : ℚ)
    (pos : PaperPosition) (hl : lookupPos e.account.positions o.symbol = some pos)
    (hs : pos.side ≠ o.side) (hge : pos.quantity ≤ o.quantity) :
    ∃ e', updatePosition e t o fp = Except.ok e' ∧
      e'.account.total_pnl = e.account.total_pnl +
        (if pos.side = OrderSide.buy then (fp - pos.entry_price) * pos.quantity
         else (pos.entry_price - fp) * pos.quantity) ∧
      lookupPos e'.account.positions o.symbol =
        (if pos.quantity < o.quantity then
          some (newPosition o.symbol o.side (o.quantity - pos.quantity) fp t) else none) := by
  obtain ⟨e', h1, h2, _, _, h5⟩ := updatePosition_close t fp hl hs
  refine ⟨e', h1, ?_, h5 hge⟩
  rw [h2, min_eq_right hge]
  rfl

/-- Witness for C3, the netting scenario of the claim: a long position of
1.0 "A" opened at 100 (via a MARKET BUY on the zero-commission engine),
then a SELL of 1.5 filled at 110: realized PnL is 10 and the surviving
position is a SELL of 0.5 with entry 110. -/
theorem C3_netting_full_close_witness :
    lookupPos engC.account.positions sellOrder15.symbol = some posBuy1At100 ∧
    posBuy1At100.side ≠ sellOrder15.side ∧
    posBuy1At100.quantity ≤ sellOrder15.quantity ∧
    ∃ e', updatePosition engC 1 sellOrder15 110 = Except.ok e' ∧
      e'.account.total_pnl = 10 ∧
      (lookupPos e'.account.positions "A").map
        (fun pp => (pp.side, pp.quantity, pp.entry_price)) =
        some (OrderSide.sell, 1/2, 110) := by
  have h1 : lookupPos engC.account.positions sellOrder15.symbol = some posBuy1At100 := by
    norm_num [engC, engB, sellOrder15, posBuy1At100, run, step, placeOrder, placePrep, initOrder, getCurrentPrice,
      getCurrentPriceC, lookupQ, basePrice_A, executeOrder, fillOrder, updatePosition,
      updateAccountEquity, markedEngine, markPositions, calcCommission, calcRealizedPnl,
      lookupPos, newPosition, mkEngine, createInitialAccount, zeroVariation, pyOr, applyFill,
      fillTrade, fillMark, setPos, delPos, buy_eq_sell_false, sell_eq_buy_false]
  have h2 : posBuy1At100.side ≠ sellOrder15.side := by decide
  have h3 : posBuy1At100.quantity ≤ sellOrder15.quantity := by
    norm_num [posBuy1At100, sellOrder15]
  obtain ⟨e', he, hp, hl⟩ := C3_netting_full_close engC 1 sellOrder15 110 posBuy1At100 h1 h2 h3
  refine ⟨h1, h2, h3, e', he, ?_, ?_⟩
  · rw [hp]
    norm_num [engC, engB, posBuy1At100, run, step, placeOrder, placePrep, initOrder, getCurrentPrice,
      getCurrentPriceC, lookupQ, basePrice_A, executeOrder, fillOrder, updatePosition,
      updateAccountEquity, markedEngine, markPositions, calcCommission, calcRealizedPnl,
      lookupPos, newPosition, mkEngine, createInitialAccount, zeroVariation, pyOr, applyFill,
      fillTrade, fillMark, setPos, delPos, buy_eq_sell_false, sell_eq_buy_false]
  · have hsym : sellOrder15.symbol = "A" := rfl
    rw [← hsym, hl]
    norm_num [posBuy1At100, sellOrder15, newPosition]

/-- C4: over any sequence of engine operations, the cash balance equals
the initial balance minus Σ(quantity×fill_price + commission) over BUY
fills plus Σ(quantity×fill_price − commission) over SELL fills, every
recorded fill carries commission = quantity×fill_price×commission_rate,
and with commission rate 0 the balance is the initial balance minus the
BUY notional plus the SELL notional. -/
theorem C4_cash_conservation (init rate : ℚ) (v : String → ℚ) (t0 : ℕ) (cs : List Cmd) :
    (run (mkEngine init rate v t0) cs).account.balance =
      init - buyCosts (run (mkEngine init rate v t0) cs).account.trade_history
        + sellProceeds (run (mkEngine init rate v t0) cs).account.trade_history ∧
    (∀ tr ∈ (run (mkEngine init rate v t0) cs).account.trade_history,
      tr.commission = tr.quantity * tr.price * rate) ∧
    (rate = 0 →
      (run (mkEngine init rate v t0) cs).account.balance =
        init - buyNotional (run (mkEngine init rate v t0) cs).account.trade_history
          + sellNotional (run (mkEngine init rate v t0) cs).account.trade_history) := by
  have hcash := run_cash cs (mkEngine_cash init rate v t0)
  have hcfg := run_config cs (mkEngine init rate v t0)
  have hinit : (run (mkEngine init rate v t0) cs).initial_balance = init := hcfg.1
  have hrate : (run (mkEngine init rate v t0) cs).commission_rate = rate := hcfg.2
  have hbal : (run (mkEngine init rate v t0) cs).account.balance =
      init - buyCosts (run (mkEngine init rate v t0) cs).account.trade_history
        + sellProceeds (run (mkEngine init rate v t0) cs).account.trade_history := by
    rw [hcash.1, hinit, netCash_eq_proceeds_sub_costs]
    ring
  have hcomm : ∀ tr ∈ (run (mkEngine init rate v t0) cs).account.trade_history,
      tr.commission = tr.quantity * tr.price * rate := by
    intro tr htr
    rw [← hrate]
    exact hcash.2 tr htr
  refine ⟨hbal, hcomm, ?_⟩
  intro hr0
  have hzero : ∀ tr ∈ (run (mkEngine init rate v t0) cs).account.trade_history,
      tr.commission = 0 := by
    intro tr htr
    rw [hcomm tr htr, hr0, mul_zero]
  obtain ⟨hb, hs⟩ := notional_of_zero_commission hzero
  rw [hbal, hb, hs]

/-- Witness for C4: on a zero-commission engine, one MARKET BUY of 1.0
"A" at the baseline price 100 leaves balance 9900 = 10000 − buy notional
+ sell notional. -/
theorem C4_cash_conservation_witness :
    (0 : ℚ) = 0 ∧
    (run (mkEngine 10000 0 zeroVariation 0)
      [Cmd.place 0 "A" OrderSide.buy OrderType.market 1 none none]).account.balance = 9900 ∧
    10000 - buyNotional (run (mkEngine 10000 0 zeroVariation 0)
        [Cmd.place 0 "A" OrderSide.buy OrderType.market 1 none none]).account.trade_history
      + sellNotional (run (mkEngine 10000 0 zeroVariation 0)
        [Cmd.place 0 "A" OrderSide.buy OrderType.market 1 none none]).account.trade_history
      = 9900 := by
  have h := (C4_cash_conservation 10000 0 zeroVariation 0
    [Cmd.place 0 "A" OrderSide.buy OrderType.market 1 none none]).2.2 rfl
  have heval : 10000 - buyNotional (run (mkEngine 10000 0 zeroVariation 0)
        [Cmd.place 0 "A" OrderSide.buy OrderType.market 1 none none]).account.trade_history
      + sellNotional (run (mkEngine 10000 0 zeroVariation 0)
        [Cmd.place 0 "A" OrderSide.buy OrderType.market 1 none none]).account.trade_history
      = 9900 := by
    norm_num [buyNotional, sellNotional, run, step, placeOrder, placePrep, initOrder, getCurrentPrice,
      getCurrentPriceC, lookupQ, basePrice_A, executeOrder, fillOrder, updatePosition,
      updateAccountEquity, markedEngine, markPositions, calcCommission, calcRealizedPnl,
      lookupPos, newPosition, mkEngine, createInitialAccount, zeroVariation, pyOr, applyFill,
      fillTrade, fillMark, setPos, delPos, buy_eq_sell_false, sell_eq_buy_false]
  exact ⟨rfl, h.trans heval, heval⟩

/-- C5 counterexample: after a MARKET BUY of quantity 0 on a fresh
symbol, the positions map holds a Position object of quantity exactly 0,
refuting "every Position present has quantity > 0". -/
theorem C5_counterexample :
    (lookupPos engA0.account.positions "BTCUSDT").map (fun pp => pp.quantity) = some 0 ∧
    ¬ posInvariant engA0 := by
  have hq : (lookupPos engA0.account.positions "BTCUSDT").map (fun pp => pp.quantity) =
      some 0 := by
    norm_num [engA0, engA, run, step, placeOrder, placePrep, initOrder, getCurrentPrice,
      getCurrentPriceC, lookupQ, basePrice_BTC, executeOrder, fillOrder, updatePosition,
      updateAccountEquity, markedEngine, markPositions, calcCommission, calcRealizedPnl,
      lookupPos, newPosition, mkEngine, createInitialAccount, zeroVariation, pyOr, applyFill,
      fillTrade, fillMark, setPos, delPos, buy_eq_sell_false, sell_eq_buy_false]
  refine ⟨hq, ?_⟩
  intro h
  obtain ⟨v, hv, hvq⟩ := Option.map_eq_some'.mp hq
  exact lt_irrefl 0 (hvq ▸ h _ (lookupPos_mem hv))

/-- C5 amended: in every engine state reachable from a fresh engine by
`place_order` calls whose quantity is strictly positive (plus any
`cancel_order`, summary and history calls), every Position in the
positions map has quantity > 0. -/
theorem C5_amended_positive_positions (init rate : ℚ) (v : String → ℚ) (t0 : ℕ)
    (cs : List Cmd) (hq : ∀ c ∈ cs, cmdQtyPos c) :
    posInvariant (run (mkEngine init rate v t0) cs) :=
  run_posInv hq (mkEngine_posInv init rate v t0)

/-- Witness for C5 amended: a single positive-quantity BUY. -/
theorem C5_amended_positive_positions_witness :
    (∀ c ∈ [Cmd.place 0 "A" OrderSide.buy OrderType.market 1 none none], cmdQtyPos c) ∧
    posInvariant (run (mkEngine 10000 0 zeroVariation 0)
      [Cmd.place 0 "A" OrderSide.buy OrderType.market 1 none none]) := by
  have hq : ∀ c ∈ [Cmd.place 0 "A" OrderSide.buy OrderType.market 1 none none],
      cmdQtyPos c := by
    intro c hc
    rw [List.mem_singleton] at hc
    subst hc
    show (0 : ℚ) < 1
    norm_num
  exact ⟨hq, C5_amended_positive_positions 10000 0 zeroVariation 0 _ hq⟩

/-- C6: whenever the equity recomputation completes, max_drawdown is
raised to (initial − equity)/initial exactly when equity < initial, and
never lowered; when the recomputation instead raises (only possible for
a zero initial balance), max_drawdown is left exactly unchanged;
max_drawdown never decreases over any sequence of public operations; and
in the concrete scenario (initial 10000, equity driven to 9000 by a
LIMIT BUY overpaying at 550, then recovering to 9500 after a LIMIT SELL
at 50) max_drawdown stays at 0.10 rather than improving to 0.05. -/
theorem C6_max_drawdown_monotone :
    (∀ (e eA : Engine) (t : ℕ), updateAccountEquity e t = Except.ok eA →
      eA.account.max_drawdown =
        (if eA.account.equity < e.initial_balance then
          max e.account.max_drawdown
            ((e.initial_balance - eA.account.equity) / e.initial_balance)
        else e.account.max_drawdown) ∧
      e.account.max_drawdown ≤ eA.account.max_drawdown) ∧
    (∀ (e eE : Engine) (t : ℕ) (msg : String),
      updateAccountEquity e t = Except.error (msg, eE) →
      eE.account.max_drawdown = e.account.max_drawdown) ∧
    (∀ (e : Engine) (cs : List Cmd),
      e.account.max_drawdown ≤ (run e cs).account.max_drawdown) ∧
    ((run engB [Cmd.place 0 "A" OrderSide.buy OrderType.limit 1 (some 550) none]).account.equity
        = 9000 ∧
      (run engB [Cmd.place 0 "A" OrderSide.buy OrderType.limit 1 (some 550) none]).account.max_drawdown
        = 1/10 ∧
      (run engB [Cmd.place 0 "A" OrderSide.buy OrderType.limit 1 (some 550) none,
        Cmd.place 1 "A" OrderSide.sell OrderType.limit 1 (some 50) none]).account.equity = 9500 ∧
      (run engB [Cmd.place 0 "A" OrderSide.buy OrderType.limit 1 (some 550) none,
        Cmd.place 1 "A" OrderSide.sell OrderType.limit 1 (some 50) none]).account.max_drawdown
        = 1/10) := by
  refine ⟨fun e eA t h =>
      ⟨updateAccountEquity_ok_drawdown h, updateAccountEquity_ok_dd_mono h⟩,
    fun e eE t msg h => ?_, fun e cs => run_dd cs e, ?_, ?_, ?_, ?_⟩
  · have hE := (updateAccountEquity_err_spec h).2.1
    subst hE
    rfl
  all_goals
    norm_num [engB, run, step, placeOrder, placePrep, initOrder, getCurrentPrice,
      getCurrentPriceC, lookupQ, basePrice_A, executeOrder, fillOrder, updatePosition,
      updateAccountEquity, markedEngine, markPositions, calcCommission, calcRealizedPnl,
      lookupPos, newPosition, mkEngine, createInitialAccount, zeroVariation, pyOr, applyFill,
      fillTrade, fillMark, setPos, delPos, buy_eq_sell_false, sell_eq_buy_false]

/-- Witness for C6: the equity recomputation on the fresh zero-commission
engine at instant 0 returns `engB0`, and the theorem's drawdown equation
and monotonicity hold for it. -/
theorem C6_max_drawdown_monotone_witness :
    updateAccountEquity engB 0 = Except.ok engB0 ∧
    (engB0.account.max_drawdown =
      (if engB0.account.equity < engB.initial_balance then
        max engB.account.max_drawdown
          ((engB.initial_balance - engB0.account.equity) / engB.initial_balance)
      else engB.account.max_drawdown) ∧
    engB.account.max_drawdown ≤ engB0.account.max_drawdown) := by
  have hge : ¬ (markedEngine engB).account.equity < engB.initial_balance := by
    norm_num [markedEngine, markPositions, engB, mkEngine, createInitialAccount]
  have hok : updateAccountEquity engB 0 = Except.ok engB0 :=
    updateAccountEquity_ok_ge_eq 0 hge
  exact ⟨hok, C6_max_drawdown_monotone.1 engB engB0 0 hok⟩

/-- C7 counterexample: after a qty-0 MARKET BUY created a qty-0 position,
a second qty-0 MARKET BUY is FILLED inside `_fill_order` (the exception
payload carries the order with status FILLED) and the weighted-average
division then raises `ZeroDivisionError`; the handler overwrites the
already-FILLED order to REJECTED, so the returned order is REJECTED yet
carries fill fields — an order left PENDING and was modified afterwards,
refuting one-way transitions. -/
theorem C7_counterexample :
    errOrderStatus (executeOrder (placePrep engA0 "BTCUSDT").2 1
      (initOrder engA0 1 "BTCUSDT" OrderSide.buy OrderType.market 0 none none)) =
      some OrderStatus.filled ∧
    (placeOrder engA0 1 "BTCUSDT" OrderSide.buy OrderType.market 0 none none).1.status =
      OrderStatus.rejected ∧
    (placeOrder engA0 1 "BTCUSDT" OrderSide.buy OrderType.market 0 none none).1.filled_price =
      some 50000 ∧
    (placeOrder engA0 1 "BTCUSDT" OrderSide.buy OrderType.market 0 none none).1.filled_quantity =
      some 0 ∧
    (placeOrder engA0 1 "BTCUSDT" OrderSide.buy OrderType.market 0 none none).1.notes =
      zeroDivMsg := by
  norm_num [engA0, engA, errOrderStatus, run, step, placeOrder, placePrep, initOrder, getCurrentPrice,
      getCurrentPriceC, lookupQ, basePrice_BTC, executeOrder, fillOrder, updatePosition,
      updateAccountEquity, markedEngine, markPositions, calcCommission, calcRealizedPnl,
      lookupPos, newPosition, mkEngine, createInitialAccount, zeroVariation, pyOr, applyFill,
      fillTrade, fillMark, setPos, delPos, buy_eq_sell_false, sell_eq_buy_false]

/-- C7 amended: across public operations stored orders evolve one-way —
an order that is no longer PENDING is never changed, a PENDING order can
only become CANCELLED, and newly appended orders are FILLED or PENDING
(a rejected order is never stored) — and, provided the engine was
constructed with a nonzero initial balance and every order is placed
with strictly positive quantity, any exception during fill resolution is
raised while the order is still PENDING, so no order that has left
PENDING (in particular no FILLED order) is ever modified again, within
the placing call or later. -/
theorem C7_amended_one_way_transitions (init rate : ℚ) (v : String → ℚ) (t0 : ℕ)
    (cs : List Cmd) (c : Cmd) (hib : init ≠ 0) (hq : ∀ x ∈ cs, cmdQtyPos x)
    (hc : cmdQtyPos c) :
    (∃ l tail,
      (step (run (mkEngine init rate v t0) cs) c).account.orders = l ++ tail ∧
      List.Forall₂ orderEvolves (run (mkEngine init rate v t0) cs).account.orders l ∧
      ∀ x ∈ tail, x.status = OrderStatus.filled ∨ x.status = OrderStatus.pending) ∧
    (∀ (t : ℕ) (s : String) (side : OrderSide) (ot : OrderType) (q : ℚ) (p sp : Option ℚ)
      (msg : String) (oR : PaperOrder) (eR : Engine),
      c = Cmd.place t s side ot q p sp →
      executeOrder (placePrep (run (mkEngine init rate v t0) cs) s).2 t
        (initOrder (run (mkEngine init rate v t0) cs) t s side ot q p sp) =
        Except.error (msg, oR, eR) →
      oR.status = OrderStatus.pending) := by
  refine ⟨step_orders _ c, ?_⟩
  intro t s side ot q p sp msg oR eR hceq herr
  have hinv : posInvariant (run (mkEngine init rate v t0) cs) :=
    run_posInv hq (mkEngine_posInv init rate v t0)
  have hq0 : 0 < q := by
    rw [hceq] at hc
    exact hc
  have hinv2 : posInvariant (placePrep (run (mkEngine init rate v t0) cs) s).2 := hinv
  have hi2 : (placePrep (run (mkEngine init rate v t0) cs) s).2.initial_balance ≠ 0 := by
    show (run (mkEngine init rate v t0) cs).initial_balance ≠ 0
    rw [(run_config cs (mkEngine init rate v t0)).1]
    exact hib
  have hpend := executeOrder_err_pending
    (o := initOrder (run (mkEngine init rate v t0) cs) t s side ot q p sp) hq0 hinv2 hi2 herr
  rw [hpend]
  rfl

/-- Witness for C7 amended: the empty history followed by one
positive-quantity MARKET BUY on the default engine (initial 10000). -/
theorem C7_amended_one_way_transitions_witness :
    (10000 : ℚ) ≠ 0 ∧
    (∀ x ∈ ([] : List Cmd), cmdQtyPos x) ∧
    cmdQtyPos (Cmd.place 0 "A" OrderSide.buy OrderType.market 1 none none) ∧
    ((∃ l tail,
      (step (run (mkEngine 10000 (1/1000) zeroVariation 0) [])
        (Cmd.place 0 "A" OrderSide.buy OrderType.market 1 none none)).account.orders =
        l ++ tail ∧
      List.Forall₂ orderEvolves
        (run (mkEngine 10000 (1/1000) zeroVariation 0) []).account.orders l ∧
      ∀ x ∈ tail, x.status = OrderStatus.filled ∨ x.status = OrderStatus.pending) ∧
    (∀ (t : ℕ) (s : String) (side : OrderSide) (ot : OrderType) (q : ℚ) (p sp : Option ℚ)
      (msg : String) (oR : PaperOrder) (eR : Engine),
      Cmd.place 0 "A" OrderSide.buy OrderType.market 1 none none = Cmd.place t s side ot q p sp →
      executeOrder (placePrep (run (mkEngine 10000 (1/1000) zeroVariation 0) []) s).2 t
        (initOrder (run (mkEngine 10000 (1/1000) zeroVariation 0) []) t s side ot q p sp) =
        Except.error (msg, oR, eR) →
      oR.status = OrderStatus.pending)) := by
  have hib : (10000 : ℚ) ≠ 0 := by norm_num
  have h1 : ∀ x ∈ ([] : List Cmd), cmdQtyPos x := by simp
  have h2 : cmdQtyPos (Cmd.place 0 "A" OrderSide.buy OrderType.market 1 none none) := by
    show (0 : ℚ) < 1
    norm_num
  exact ⟨hib, h1, h2,
    C7_amended_one_way_transitions 10000 (1/1000) zeroVariation 0 [] _ hib h1 h2⟩

/-- C8 counterexample: two consecutive `get_account_summary` calls with
no intervening mutation but observed at clock instants 5 and 7 return
mappings that differ — `updated_at` is restamped with `datetime.now()`
on every call, so the summaries are not identical. -/
theorem C8_counterexample :
    (summaryOf (getAccountSummary engC 5)).map (fun s => s.updated_at) = some 5 ∧
    (summaryOf (getAccountSummary (engineAfterSummary engC 5) 7)).map
      (fun s => s.updated_at) = some 7 ∧
    summaryOf (getAccountSummary engC 5) ≠
      summaryOf (getAccountSummary (engineAfterSummary engC 5) 7) := by
  have hib : engC.initial_balance ≠ 0 := by
    norm_num [engC, engB, run, step, placeOrder, placePrep, initOrder, getCurrentPrice,
      getCurrentPriceC, lookupQ, basePrice_A, executeOrder, fillOrder, updatePosition,
      updateAccountEquity, markedEngine, markPositions, calcCommission, calcRealizedPnl,
      lookupPos, newPosition, mkEngine, createInitialAccount, zeroVariation, pyOr, applyFill,
      fillTrade, fillMark, setPos, delPos, buy_eq_sell_false, sell_eq_buy_false]
  obtain ⟨e1, hu1⟩ := updateAccountEquity_ok_of_nonzero 5 hib
  have hib1 : e1.initial_balance ≠ 0 := by
    rw [(updateAccountEquity_ok_frame hu1).1]
    exact hib
  have hs1 : getAccountSummary engC 5 = Except.ok (mkSummary e1, e1) := by
    simp [getAccountSummary, hu1, hib1]
  have hafter : engineAfterSummary engC 5 = e1 := engineAfterSummary_ok hu1
  obtain ⟨e2, hu2, _, _, _, hupd2⟩ := updateAccountEquity_idem 7 hu1
  have hib2 : e2.initial_balance ≠ 0 := by
    rw [(updateAccountEquity_ok_frame hu2).1]
    exact hib1
  have hs2 : getAccountSummary e1 7 = Except.ok (mkSummary e2, e2) := by
    simp [getAccountSummary, hu2, hib2]
  have h1 : (summaryOf (getAccountSummary engC 5)).map (fun s => s.updated_at) = some 5 := by
    rw [hs1]
    show some (mkSummary e1).updated_at = some 5
    rw [show (mkSummary e1).updated_at = e1.account.updated_at from rfl,
      (updateAccountEquity_ok_spec hu1).2.2.2]
  have h2 : (summaryOf (getAccountSummary (engineAfterSummary engC 5) 7)).map
      (fun s => s.updated_at) = some 7 := by
    rw [hafter, hs2]
    show some (mkSummary e2).updated_at = some 7
    rw [show (mkSummary e2).updated_at = e2.account.updated_at from rfl, hupd2]
  refine ⟨h1, h2, ?_⟩
  intro hco
  rw [hco] at h1
  rw [h1] at h2
  exact absurd (Option.some_inj.mp h2) (by norm_num)

/-- C8 amended: on an engine with nonzero initial balance, two
consecutive `get_account_summary` calls with no intervening mutating
operation both return mappings that agree on every key except
`updated_at` — balance, equity, margin fields, all counters, win rate,
total PnL, max drawdown, return percentage, positions and open orders
are identical — while `updated_at` equals the clock instant of each
respective call. -/
theorem C8_amended_summary_stable_except_updated_at (e : Engine) (t1 t2 : ℕ)
    (hib : e.initial_balance ≠ 0) :
    ∃ s1 e1 s2 e2,
      getAccountSummary e t1 = Except.ok (s1, e1) ∧
      getAccountSummary e1 t2 = Except.ok (s2, e2) ∧
      s2.balance = s1.balance ∧ s2.equity = s1.equity ∧
      s2.margin_used = s1.margin_used ∧ s2.free_margin = s1.free_margin ∧
      s2.total_trades = s1.total_trades ∧ s2.winning_trades = s1.winning_trades ∧
      s2.losing_trades = s1.losing_trades ∧ s2.win_rate = s1.win_rate ∧
      s2.total_pnl = s1.total_pnl ∧ s2.max_drawdown = s1.max_drawdown ∧
      s2.return_pct = s1.return_pct ∧ s2.positions = s1.positions ∧
      s2.open_orders = s1.open_orders ∧ s2.created_at = s1.created_at ∧
      s1.updated_at = t1 ∧ s2.updated_at = t2 := by
  obtain ⟨e1, hu1⟩ := updateAccountEquity_ok_of_nonzero t1 hib
  have hib1 : e1.initial_balance ≠ 0 := by
    rw [(updateAccountEquity_ok_frame hu1).1]
    exact hib
  have hs1 : getAccountSummary e t1 = Except.ok (mkSummary e1, e1) := by
    simp [getAccountSummary, hu1, hib1]
  obtain ⟨e2, hu2, heq, hpos, hdd, hupd⟩ := updateAccountEquity_idem t2 hu1
  have hf := updateAccountEquity_ok_frame hu2
  have hib2 : e2.initial_balance ≠ 0 := by
    rw [hf.1]
    exact hib1
  have hs2 : getAccountSummary e1 t2 = Except.ok (mkSummary e2, e2) := by
    simp [getAccountSummary, hu2, hib2]
  obtain ⟨hi2, hc2, hv2, hoc2, hr2, hbal2, hord2, hth2, htt2, hw2, hl2, hpnl2, hca2,
    hmu2, hfm2⟩ := hf
  refine ⟨mkSummary e1, e1, mkSummary e2, e2, hs1, hs2, hbal2, heq, hmu2, hfm2, htt2, hw2,
    hl2, ?_, hpnl2, hdd, ?_, hpos, ?_, hca2, ?_, hupd⟩
  · show (if 0 < e2.account.total_trades then
        (e2.account.winning_trades : ℚ) / (e2.account.total_trades : ℚ) else 0) =
      (if 0 < e1.account.total_trades then
        (e1.account.winning_trades : ℚ) / (e1.account.total_trades : ℚ) else 0)
    rw [htt2, hw2]
  · show (e2.account.equity - e2.initial_balance) / e2.initial_balance =
      (e1.account.equity - e1.initial_balance) / e1.initial_balance
    rw [heq, hi2]
  · show e2.account.orders.filter (fun o => o.status = OrderStatus.pending) =
      e1.account.orders.filter (fun o => o.status = OrderStatus.pending)
    rw [hord2]
  · exact (updateAccountEquity_ok_spec hu1).2.2.2

/-- Witness for C8 amended: the engine holding one position after a BUY
(initial balance 10000 ≠ 0), summarised at instants 5 and 7. -/
theorem C8_amended_summary_witness :
    engC.initial_balance ≠ 0 ∧
    (∃ s1 e1 s2 e2,
      getAccountSummary engC 5 = Except.ok (s1, e1) ∧
      getAccountSummary e1 7 = Except.ok (s2, e2) ∧
      s2.balance = s1.balance ∧ s2.equity = s1.equity ∧
      s2.margin_used = s1.margin_used ∧ s2.free_margin = s1.free_margin ∧
      s2.total_trades = s1.total_trades ∧ s2.winning_trades = s1.winning_trades ∧
      s2.losing_trades = s1.losing_trades ∧ s2.win_rate = s1.win_rate ∧
      s2.total_pnl = s1.total_pnl ∧ s2.max_drawdown = s1.max_drawdown ∧
      s2.return_pct = s1.return_pct ∧ s2.positions = s1.positions ∧
      s2.open_orders = s1.open_orders ∧ s2.created_at = s1.created_at ∧
      s1.updated_at = 5 ∧ s2.updated_at = 7) := by
  have hib : engC.initial_balance ≠ 0 := by
    norm_num [engC, engB, run, step, placeOrder, placePrep, initOrder, getCurrentPrice,
      getCurrentPriceC, lookupQ, basePrice_A, executeOrder, fillOrder, updatePosition,
      updateAccountEquity, markedEngine, markPositions, calcCommission, calcRealizedPnl,
      lookupPos, newPosition, mkEngine, createInitialAccount, zeroVariation, pyOr, applyFill,
      fillTrade, fillMark, setPos, delPos, buy_eq_sell_false, sell_eq_buy_false]
  exact ⟨hib, C8_amended_summary_stable_except_updated_at engC 5 7 hib⟩

/-- C9 counterexample: with one record in the trade history,
`get_trade_history(0)` returns that record (the whole history), not the
`min(0, 1) = 0` records the claim demands — Python `history[-0:]` is
`history[0:]`. -/
theorem C9_counterexample :
    getTradeHistory engC 0 = engC.account.trade_history ∧
    (getTradeHistory engC 0).length = 1 ∧
    ¬ (getTradeHistory engC 0).length = min 0 engC.account.trade_history.length := by
  refine ⟨rfl, ?_, ?_⟩
  · show engC.account.trade_history.length = 1
    norm_num [engC, engB, run, step, placeOrder, placePrep, initOrder, getCurrentPrice,
      getCurrentPriceC, lookupQ, basePrice_A, executeOrder, fillOrder, updatePosition,
      updateAccountEquity, markedEngine, markPositions, calcCommission, calcRealizedPnl,
      lookupPos, newPosition, mkEngine, createInitialAccount, zeroVariation, pyOr, applyFill,
      fillTrade, fillMark, setPos, delPos, buy_eq_sell_false, sell_eq_buy_false]
  · show ¬ engC.account.trade_history.length = min 0 engC.account.trade_history.length
    have h1 : engC.account.trade_history.length = 1 := by
      norm_num [engC, engB, run, step, placeOrder, placePrep, initOrder, getCurrentPrice,
      getCurrentPriceC, lookupQ, basePrice_A, executeOrder, fillOrder, updatePosition,
      updateAccountEquity, markedEngine, markPositions, calcCommission, calcRealizedPnl,
      lookupPos, newPosition, mkEngine, createInitialAccount, zeroVariation, pyOr, applyFill,
      fillTrade, fillMark, setPos, delPos, buy_eq_sell_false, sell_eq_buy_false]
    rw [h1]
    norm_num

/-- C9 amended: for every limit N ≥ 1, `get_trade_history(N)` returns
exactly the `min(N, length)` most recent records — the drop of all but
the last N, a suffix of the chronological history — while for N = 0 it
returns the entire history (Python `history[-0:]` is the whole list),
not no records. -/
theorem C9_amended_history_suffix (e : Engine) (n : ℕ) (hn : 1 ≤ n) :
    getTradeHistory e n =
      e.account.trade_history.drop (e.account.trade_history.length - n) ∧
    (getTradeHistory e n).length = min n e.account.trade_history.length ∧
    getTradeHistory e n <:+ e.account.trade_history ∧
    getTradeHistory e 0 = e.account.trade_history := by
  have hne : ¬ n = 0 := by omega
  refine ⟨by simp [getTradeHistory, hne], ?_, ?_, rfl⟩
  · simp only [getTradeHistory, hne, if_false, List.length_drop]
    omega
  · simp only [getTradeHistory, hne, if_false]
    exact List.drop_suffix _ _

/-- Witness for C9 amended, at N = 1 on a one-trade history. -/
theorem C9_amended_history_suffix_witness :
    1 ≤ 1 ∧
    (getTradeHistory engC 1 =
      engC.account.trade_history.drop (engC.account.trade_history.length - 1) ∧
    (getTradeHistory engC 1).length = min 1 engC.account.trade_history.length ∧
    getTradeHistory engC 1 <:+ engC.account.trade_history ∧
    getTradeHistory engC 0 = engC.account.trade_history) :=
  ⟨le_refl 1, C9_amended_history_suffix engC 1 (le_refl 1)⟩

/-- C10: every closing fill (full or partial) increments exactly one of
the win/loss counters: `winning_trades` exactly when the realized PnL of
that fill is strictly positive, and `losing_trades` otherwise — in
particular a closing fill whose realized PnL is exactly 0 increments
`losing_trades`, never `winning_trades`. -/
theorem C10_zero_pnl_counts_as_loss (e : Engine) (t : ℕ) (o : PaperOrder) (fp : ℚ)
    (pos : PaperPosition) (hl : lookupPos e.account.positions o.symbol = some pos)
    (hs : pos.side ≠ o.side) :
    ∃ e', updatePosition e t o fp = Except.ok e' ∧
      e'.account.winning_trades =
        (if 0 < calcRealizedPnl pos fp (min o.quantity pos.quantity) then
          e.account.winning_trades + 1 else e.account.winning_trades) ∧
      e'.account.losing_trades =
        (if 0 < calcRealizedPnl pos fp (min o.quantity pos.quantity) then
          e.account.losing_trades else e.account.losing_trades + 1) ∧
      e'.account.winning_trades + e'.account.losing_trades =
        e.account.winning_trades + e.account.losing_trades + 1 := by
  obtain ⟨e', h1, _, h3, h4, _⟩ := updatePosition_close t fp hl hs
  refine ⟨e', h1, h3, h4, ?_⟩
  rw [h3, h4]
  by_cases hp : 0 < calcRealizedPnl pos fp (min o.quantity pos.quantity)
  · rw [if_pos hp, if_pos hp]
    omega
  · rw [if_neg hp, if_neg hp]
    omega

/-- Witness for C10: closing a long 1.0 @ 100 with a SELL of 1.0 at fill
price 100 realizes exactly 0 and increments `losing_trades`, not
`winning_trades`. -/
theorem C10_zero_pnl_counts_as_loss_witness :
    lookupPos engD.account.positions sellOrder1.symbol = some posBuy1At100 ∧
    posBuy1At100.side ≠ sellOrder1.side ∧
    calcRealizedPnl posBuy1At100 100 (min sellOrder1.quantity posBuy1At100.quantity) = 0 ∧
    ∃ e', updatePosition engD 1 sellOrder1 100 = Except.ok e' ∧
      e'.account.winning_trades = 0 ∧ e'.account.losing_trades = 1 := by
  have h1 : lookupPos engD.account.positions sellOrder1.symbol = some posBuy1At100 := rfl
  have h2 : posBuy1At100.side ≠ sellOrder1.side := by decide
  have h0 : calcRealizedPnl posBuy1At100 100 (min sellOrder1.quantity posBuy1At100.quantity)
      = 0 := by
    norm_num [calcRealizedPnl, posBuy1At100, sellOrder1, sellOrder15]
  obtain ⟨e', he, hw, hlo, _⟩ := C10_zero_pnl_counts_as_loss engD 1 sellOrder1 100
    posBuy1At100 h1 h2
  refine ⟨h1, h2, h0, e', he, ?_, ?_⟩
  · rw [hw, h0]
    show (if (0:ℚ) < 0 then engD.account.winning_trades + 1
      else engD.account.winning_trades) = 0
    norm_num [engD, createInitialAccount]
  · rw [hlo, h0]
    show (if (0:ℚ) < 0 then engD.account.losing_trades
      else engD.account.losing_trades + 1) = 1
    norm_num [engD, createInitialAccount]
